import Mathlib

/-!
A verification development for the writeback (finalization) phase of the
type checker in `src/librustc_typeck/check/writeback.rs`.

The embedding models each function of the source file as a Lean definition
with the same name.  Machine-level details that live outside the translated
file (the HIR data structures, the `fully_resolve` query of the
inference context, `lift_to_global`, `is_scalar`, `is_by_value`) are modelled from the
specification at their documented boundary; each such definition carries a
doc comment saying so.  Spans and diagnostic rendering are elided:
a diagnostic is recorded as a structured value listing what the source
would have printed.
-/

set_option autoImplicit false

namespace Writeback

/-- A stable node identifier: an owning-item component plus a locally
unique index (`hir::HirId`). -/
structure HirId where
  owner : Nat
  local_id : Nat
deriving DecidableEq, Repr

/-- Region kinds (`ty::RegionKind`), one constructor per variant matched
by `visit_anon_types`. -/
inductive Region where
  | ReStatic
  | ReEarlyBound (idx : Nat)
  | ReEmpty
  | ReFree (idx : Nat)
  | ReLateBound (debruijn : Nat) (idx : Nat)
  | ReScope (idx : Nat)
  | ReSkolemized (univ : Nat) (idx : Nat)
  | ReVar (vid : Nat)
  | ReErased
deriving DecidableEq, Repr

/-- Types.  `infer` is a type inference variable, `err` is the sentinel
error type (`tcx.types.err`); `ref` embeds a region so that region
resolution inside types is visible; `pair` stands for any compound
type former; `adt` is a concrete nominal (non-scalar) type. -/
inductive Ty where
  | bool
  | char
  | int (w : Nat)
  | uint (w : Nat)
  | float (w : Nat)
  | adt (name : Nat)
  | infer (vid : Nat)
  | err
  | ref (r : Region) (t : Ty)
  | pair (a b : Ty)
deriving DecidableEq, Repr

/-- Does a region mention a region inference variable? -/
def regionNeedsInfer : Region → Bool
  | .ReVar _ => true
  | _ => false

/-- `needs_infer`: the value mentions a type or region inference
variable. -/
def needsInfer : Ty → Bool
  | .infer _ => true
  | .ref r t => regionNeedsInfer r || needsInfer t
  | .pair a b => needsInfer a || needsInfer b
  | _ => false

/-- Modelled from the spec: `is_scalar` (missing from the translated file,
it lives in `rustc::ty`) — the primitive scalar types. -/
def is_scalar : Ty → Bool
  | .bool | .char | .int _ | .uint _ | .float _ => true
  | _ => false

/-- Association-list lookup (first binding wins), the map model used for
every table in this file. -/
def lookupA {K V : Type} [DecidableEq K] : List (K × V) → K → Option V
  | [], _ => none
  | p :: r, k => if p.1 = k then some p.2 else lookupA r k

/-- Insertion: new bindings shadow older ones, like `HashMap::insert`. -/
def insertA {K V : Type} (l : List (K × V)) (k : K) (v : V) : List (K × V) :=
  (k, v) :: l

/-- Removal of every binding of a key, like `HashMap::remove` on a map
with unique keys. -/
def eraseA {K V : Type} [DecidableEq K] : List (K × V) → K → List (K × V)
  | [], _ => []
  | p :: r, k => if p.1 = k then eraseA r k else p :: eraseA r k

/-- In-place update of a key's binding when present, like
`map.get_mut(k).map(f)`. -/
def modifyA {K V : Type} [DecidableEq K] : List (K × V) → K → (V → V) → List (K × V)
  | [], _, _ => []
  | p :: r, k, f => if p.1 = k then (p.1, f p.2) :: modifyA r k f else p :: modifyA r k f

/-- Key list of a map. -/
def keysA {K V : Type} (l : List (K × V)) : List K := l.map Prod.fst

/-- Modelled from the spec: the inference context, read-only here.  It
maps type variables and region variables to their solved values (absence
means the variable is irreducibly ambiguous). -/
structure InferCtxt where
  tyvars : List (Nat × Ty)
  revars : List (Nat × Region)

/-- Modelled from the spec: `resolve_type_vars_if_possible` on a region —
substitute the solved value of a region variable when one exists,
leave it in place otherwise. -/
def resolveVarsRegion (icx : InferCtxt) : Region → Region
  | .ReVar v =>
      match lookupA icx.revars v with
      | some r => r
      | none => .ReVar v
  | r => r

/-- Modelled from the spec: `resolve_type_vars_if_possible` on a type —
substitute solved variables throughout, leave unsolved ones in place. -/
def resolveVarsTy (icx : InferCtxt) : Ty → Ty
  | .infer v =>
      match lookupA icx.tyvars v with
      | some t => t
      | none => .infer v
  | .ref r t => .ref (resolveVarsRegion icx r) (resolveVarsTy icx t)
  | .pair a b => .pair (resolveVarsTy icx a) (resolveVarsTy icx b)
  | t => t

/-- Modelled from the spec: the full-resolution query of the inference context,
`fully_resolve(value) -> Result<ConcreteValue, AmbiguityError>` on a
type: substitute every solved variable and fail if any inference
variable remains. -/
def fullyResolveTy (icx : InferCtxt) (t : Ty) : Except Unit Ty :=
  let t' := resolveVarsTy icx t
  if needsInfer t' then .error () else .ok t'

/-- Modelled from the spec: `fully_resolve` on a region. -/
def fullyResolveRegion (icx : InferCtxt) (r : Region) : Except Unit Region :=
  let r' := resolveVarsRegion icx r
  if regionNeedsInfer r' then .error () else .ok r'

/-- A recorded diagnostic.  `needTypeInfo` is the "ambiguous type, needs
annotation" report from `Resolver::report_error`; `regionInImplTrait`
is the E0564 report from `visit_anon_types`. -/
inductive Diag where
  | needTypeInfo (t : Ty)
  | regionInImplTrait (r : Region) (inside : Ty)
deriving DecidableEq, Repr

/-- Session state: whether any error has been recorded for the
compilation unit (`sess.has_errors()`), and the recorded diagnostics. -/
structure St where
  hasErrors : Bool
  diags : List Diag
deriving DecidableEq, Repr

/-- `Resolver::report_error`: emit a "type annotations needed" diagnostic
unless the session has already recorded an error. -/
def report_error (st : St) (t : Ty) : St :=
  if st.hasErrors then st
  else { hasErrors := true, diags := st.diags ++ [Diag.needTypeInfo t] }

/-- `Resolver::fold_ty`: use the fully resolved type on success; on
failure report the ambiguity and substitute the error type. -/
def fold_ty (icx : InferCtxt) (st : St) (t : Ty) : Ty × St :=
  match fullyResolveTy icx t with
  | .ok t' => (t', st)
  | .error _ => (Ty.err, report_error st t)

/-- `Resolver::fold_region`: use the fully resolved region on success; on
failure substitute the static region, silently. -/
def fold_region (icx : InferCtxt) (st : St) (r : Region) : Region × St :=
  match fullyResolveRegion icx r with
  | .ok r' => (r', st)
  | .error _ => (Region.ReStatic, st)

/-- The ways a finalization run can abort fatally (panics and internal
compiler errors in the source). -/
inductive RunErr where
  /-- `expect("missing binding mode")` in `visit_pat`. -/
  | missingBindingMode
  /-- the internal error in `node_ty` when a node has no tentative type. -/
  | missingNodeTy
  /-- a failed `assert!(!needs_infer())`. -/
  | assertNoInfer
  /-- `span_bug!("... missing from the global type context")` in
  `resolve`, and the failed `expect` in `visit_free_region_map`. -/
  | liftBug
  /-- `span_bug!("invalid region in impl Trait")` in `visit_anon_types`. -/
  | invalidRegionBug
  /-- `local_id_root.unwrap()` failing in a side-table pass. -/
  | missingRoot
deriving DecidableEq, Repr

/-- Modelled from the spec: `lift_to_global` on a type — a value lifts
from function-local scope into the process-wide representation exactly
when it is free of function-local inference data. -/
def liftTy (t : Ty) : Option Ty :=
  if needsInfer t then none else some t

/-- Modelled from the spec: `lift_to_global` on a region. -/
def liftRegion (r : Region) : Option Region :=
  if regionNeedsInfer r then none else some r

/-- `WritebackCx::resolve` on a type: fold with the `Resolver`, then lift
to the global context; failure to lift is a fatal internal error. -/
def resolveTy (icx : InferCtxt) (st : St) (t : Ty) : Except RunErr (Ty × St) :=
  let (t', st') := fold_ty icx st t
  match liftTy t' with
  | some l => .ok (l, st')
  | none => .error RunErr.liftBug

/-- `WritebackCx::resolve` on a region. -/
def resolveRegion (icx : InferCtxt) (st : St) (r : Region) : Except RunErr (Region × St) :=
  let (r', st') := fold_region icx st r
  match liftRegion r' with
  | some l => .ok (l, st')
  | none => .error RunErr.liftBug

/-- Folding a list of types (a substitution list): each element is folded
by `fold_ty` in order. -/
def fold_ty_list (icx : InferCtxt) (st : St) : List Ty → List Ty × St
  | [] => ([], st)
  | t :: ts =>
      let (t', st') := fold_ty icx st t
      let (ts', stb) := fold_ty_list icx st' ts
      (t' :: ts', stb)

def tyListNeedsInfer (ts : List Ty) : Bool := ts.any needsInfer

/-- `WritebackCx::resolve` on a substitution list. -/
def resolveTyList (icx : InferCtxt) (st : St) (ts : List Ty) :
    Except RunErr (List Ty × St) :=
  let (ts', st') := fold_ty_list icx st ts
  if tyListNeedsInfer ts' then .error RunErr.liftBug else .ok (ts', st')

/-- An adjustment step: an implicit borrow (carrying its region) or any
other coercion, together with the target type. -/
inductive AdjustKind where
  | borrowRef (r : Region) (mutbl : Bool)
  | other (tag : Nat)
deriving DecidableEq, Repr

structure Adjustment where
  kind : AdjustKind
  target : Ty
deriving DecidableEq, Repr

def adjNeedsInfer (a : Adjustment) : Bool :=
  (match a.kind with
   | .borrowRef r _ => regionNeedsInfer r
   | .other _ => false) || needsInfer a.target

def fold_adjustment (icx : InferCtxt) (st : St) (a : Adjustment) : Adjustment × St :=
  match a.kind with
  | .borrowRef r m =>
      let (r', st') := fold_region icx st r
      let (t', stb) := fold_ty icx st' a.target
      ({ kind := .borrowRef r' m, target := t' }, stb)
  | .other tag =>
      let (t', st') := fold_ty icx st a.target
      ({ kind := .other tag, target := t' }, st')

def fold_adj_list (icx : InferCtxt) (st : St) : List Adjustment → List Adjustment × St
  | [] => ([], st)
  | a :: as_ =>
      let (a', st') := fold_adjustment icx st a
      let (as', stb) := fold_adj_list icx st' as_
      (a' :: as', stb)

def adjListNeedsInfer (l : List Adjustment) : Bool := l.any adjNeedsInfer

/-- `WritebackCx::resolve` on an adjustment list. -/
def resolveAdjList (icx : InferCtxt) (st : St) (l : List Adjustment) :
    Except RunErr (List Adjustment × St) :=
  let (l', st') := fold_adj_list icx st l
  if adjListNeedsInfer l' then .error RunErr.liftBug else .ok (l', st')

/-- A liberated function signature. -/
structure FnSig where
  inputs : List Ty
  output : Ty
deriving DecidableEq, Repr

def sigNeedsInfer (s : FnSig) : Bool := tyListNeedsInfer s.inputs || needsInfer s.output

def fold_fn_sig (icx : InferCtxt) (st : St) (s : FnSig) : FnSig × St :=
  let (ins, st') := fold_ty_list icx st s.inputs
  let (out, stb) := fold_ty icx st' s.output
  ({ inputs := ins, output := out }, stb)

/-- `WritebackCx::resolve` on a function signature. -/
def resolveFnSig (icx : InferCtxt) (st : St) (s : FnSig) :
    Except RunErr (FnSig × St) :=
  let (s', st') := fold_fn_sig icx st s
  if sigNeedsInfer s' then .error RunErr.liftBug else .ok (s', st')

/-- A generator signature (`ty::GenSig`). -/
structure GenSig where
  yield_ty : Ty
  return_ty : Ty
deriving DecidableEq, Repr

/-- A closure or generator capture (`ty::UpvarCapture`). -/
inductive UpvarCapture where
  | byValue
  | byRef (kind : Nat) (region : Region)
deriving DecidableEq, Repr

def upvarNeedsInfer : UpvarCapture → Bool
  | .byValue => false
  | .byRef _ r => regionNeedsInfer r

structure UpvarId where
  var_id : Nat
  closure_expr_id : Nat
deriving DecidableEq, Repr

/-- A pattern binding mode (`ty::BindingMode`): by value or by reference,
with mutability. -/
inductive BindingMode where
  | byValue (mutbl : Bool)
  | byRef (mutbl : Bool)
deriving DecidableEq, Repr

/-- The region folding closure of `visit_anon_types`: a region of the
resolved opaque-type witness is kept when statically nameable, is
diagnosed and replaced by the static region when function-local, and is
an internal invariant violation when an inference variable or erased. -/
def anon_region (st : St) (inside : Ty) (r : Region) : Except RunErr (Region × St) :=
  match r with
  | .ReStatic | .ReEarlyBound _ | .ReEmpty => .ok (r, st)
  | .ReFree _ | .ReLateBound _ _ | .ReScope _ | .ReSkolemized _ _ =>
      .ok (Region.ReStatic,
           { hasErrors := true,
             diags := st.diags ++ [Diag.regionInImplTrait r inside] })
  | .ReVar _ | .ReErased => .error RunErr.invalidRegionBug

/-- `gcx.fold_regions` applied with the `visit_anon_types` closure:
every region occurrence of the type goes through `anon_region`. -/
def anon_fold_ty (inside : Ty) : St → Ty → Except RunErr (Ty × St)
  | st, .ref r t =>
      match anon_region st inside r with
      | .error e => .error e
      | .ok (r', st1) =>
          match anon_fold_ty inside st1 t with
          | .error e => .error e
          | .ok (t', st2) => .ok (.ref r' t', st2)
  | st, .pair a b =>
      match anon_fold_ty inside st a with
      | .error e => .error e
      | .ok (a', st1) =>
          match anon_fold_ty inside st1 b with
          | .error e => .error e
          | .ok (b', st2) => .ok (.pair a' b', st2)
  | st, t => .ok (t, st)

/-- The number of region occurrences in a type that `anon_region`
diagnoses (free, late-bound, scope-local or skolemized). -/
def offendingRegion : Region → Bool
  | .ReFree _ | .ReLateBound _ _ | .ReScope _ | .ReSkolemized _ _ => true
  | _ => false

def countOffending : Ty → Nat
  | .ref r t => (if offendingRegion r then 1 else 0) + countOffending t
  | .pair a b => countOffending a + countOffending b
  | _ => 0

/-! ## The HIR model

The subset of the HIR that `writeback.rs` dispatches on: unary, binary
and compound-assignment operator expressions, closures (whose nested
body is inlined here, where the source fetches it from the HIR map),
and leaf expressions; binding, wildcard and one-subpattern patterns.
Type-ascription, block and local nodes are handled by the source
exactly like leaf expression nodes and are not separately modelled. -/

/-- Unary operators.  `fix_scalar_builtin_expr` matches negation and
logical not; dereference falls through to the catch-all arm. -/
inductive UnOp where
  | neg
  | not
  | deref
deriving DecidableEq, Repr

/-- Modelled from the spec: a binary or compound-assignment operator,
carrying the `is_by_value` classification whose definition lives in
`rustc::hir` (arithmetic operators consume their operands by value,
comparison operators borrow them). -/
structure BinOp where
  is_by_value : Bool
deriving DecidableEq, Repr

inductive Pat where
  | binding (id : HirId)
  | wild (id : HirId)
  | sub (id : HirId) (q : Pat)
deriving DecidableEq, Repr

def Pat.id : Pat → HirId
  | .binding i => i
  | .wild i => i
  | .sub i _ => i

/-- The node identifiers `visit_pat` finalizes, in visit order. -/
def Pat.ids : Pat → List HirId
  | .binding i => [i]
  | .wild i => [i]
  | .sub i q => i :: q.ids

/-- A function or closure argument: the argument node and its pattern. -/
structure Arg where
  id : HirId
  pat : Pat
deriving DecidableEq, Repr

inductive Expr where
  | lit (id : HirId)
  | unary (id : HirId) (op : UnOp) (inner : Expr)
  | binary (id : HirId) (op : BinOp) (lhs rhs : Expr)
  | assignOp (id : HirId) (op : BinOp) (lhs rhs : Expr)
  | closure (id : HirId) (args : List Arg) (body : Expr)
deriving DecidableEq, Repr

def Expr.id : Expr → HirId
  | .lit i => i
  | .unary i _ _ => i
  | .binary i _ _ _ => i
  | .assignOp i _ _ _ => i
  | .closure i _ _ => i

/-- The node identifiers `visit_expr` finalizes, in visit order: the
expression itself first, then (for closures) the argument nodes, the
argument patterns and the nested body, then the walked children. -/
def Expr.ids : Expr → List HirId
  | .lit i => [i]
  | .unary i _ inner => i :: inner.ids
  | .binary i _ lhs rhs => i :: (lhs.ids ++ rhs.ids)
  | .assignOp i _ lhs rhs => i :: (lhs.ids ++ rhs.ids)
  | .closure i args body =>
      i :: (args.map Arg.id ++ (args.flatMap (fun a => a.pat.ids) ++ body.ids))

/-- A function body: argument patterns plus the body expression. -/
structure Body where
  args : List Arg
  value : Expr
deriving DecidableEq, Repr

/-! ## The tables -/

/-- `ty::TypeckTables`: one per function body.  The same shape serves as
the in-progress table (produced by constraint generation, drained here)
and as the finalized output table. -/
structure TypeckTables where
  local_id_root : Option Nat := none
  node_types : List (HirId × Ty) := []
  node_substs : List (HirId × List Ty) := []
  type_dependent_defs : List (HirId × Nat) := []
  adjustments : List (HirId × List Adjustment) := []
  pat_binding_modes : List (HirId × BindingMode) := []
  pat_adjustments : List (HirId × List Adjustment) := []
  upvar_capture_map : List (UpvarId × UpvarCapture) := []
  closure_tys : List (HirId × Ty) := []
  closure_kinds : List (HirId × Nat) := []
  cast_kinds : List (HirId × Nat) := []
  liberated_fn_sigs : List (HirId × FnSig) := []
  fru_field_types : List (HirId × List Ty) := []
  generator_sigs : List (HirId × Option GenSig) := []
  generator_interiors : List (HirId × Ty) := []
  used_trait_imports : List Nat := []
  free_region_map : List (Region × Region) := []
  tainted_by_errors : Bool := false
deriving DecidableEq, Repr

instance : Inhabited TypeckTables := ⟨{}⟩

/-- The writeback context state: the in-progress table being drained
(`fcx.tables`), the output table being built (`wbcx.tables`), and the
session. -/
structure WState where
  fcx_tables : TypeckTables
  tables : TypeckTables
  st : St
deriving DecidableEq, Repr

/-- Modelled from the spec: `FnCtxt::node_ty` — a node's tentative type
from the in-progress table; a missing entry is an internal error unless
the unit is already tainted by errors, in which case the error type
stands in. -/
def node_ty (ft : TypeckTables) (hasErrors : Bool) (i : HirId) : Except RunErr Ty :=
  match lookupA ft.node_types i with
  | some t => .ok t
  | none => if hasErrors then .ok Ty.err else .error RunErr.missingNodeTy

/-- `write_ty_to_tables`: assert the value is free of inference
variables, then insert it into the node-type map of the output table. -/
def write_ty_to_tables (tbl : TypeckTables) (i : HirId) (t : Ty) :
    Except RunErr TypeckTables :=
  if needsInfer t then .error RunErr.assertNoInfer
  else .ok { tbl with node_types := insertA tbl.node_types i t }

/-- `fix_scalar_builtin_expr`: once an operator expression is known to
operate on scalars only, delete its speculative operator-overload
resolution from the in-progress table, and pop the implicit-borrow
adjustment of the borrowed operands. -/
def fix_scalar_builtin_expr (icx : InferCtxt) (e : Expr) (s : WState) :
    Except RunErr WState :=
  match e with
  | .unary i op inner =>
      (match op with
       | .neg | .not =>
          (match node_ty s.fcx_tables s.st.hasErrors inner.id with
           | .error er => .error er
           | .ok inner_ty =>
              let inner_ty := resolveVarsTy icx inner_ty
              if is_scalar inner_ty then
                .ok { s with fcx_tables :=
                  { s.fcx_tables with
                    type_dependent_defs := eraseA s.fcx_tables.type_dependent_defs i,
                    node_substs := eraseA s.fcx_tables.node_substs i } }
              else .ok s)
       | .deref => .ok s)
  | .binary i _ lhs rhs | .assignOp i _ lhs rhs =>
      (match node_ty s.fcx_tables s.st.hasErrors lhs.id with
       | .error er => .error er
       | .ok lhs_ty =>
          let lhs_ty := resolveVarsTy icx lhs_ty
          match node_ty s.fcx_tables s.st.hasErrors rhs.id with
          | .error er => .error er
          | .ok rhs_ty =>
             let rhs_ty := resolveVarsTy icx rhs_ty
             if is_scalar lhs_ty && is_scalar rhs_ty then
               let ft := { s.fcx_tables with
                 type_dependent_defs := eraseA s.fcx_tables.type_dependent_defs i,
                 node_substs := eraseA s.fcx_tables.node_substs i }
               let ft :=
                 match e with
                 | .binary _ op lhs rhs =>
                     if !op.is_by_value then
                       let adj := modifyA ft.adjustments lhs.id List.dropLast
                       let adj := modifyA adj rhs.id List.dropLast
                       { ft with adjustments := adj }
                     else ft
                 | .assignOp _ _ lhs _ =>
                     { ft with adjustments := modifyA ft.adjustments lhs.id List.dropLast }
                 | _ => ft
               .ok { s with fcx_tables := ft }
             else .ok s)
  | _ => .ok s

/-- `visit_adjustments`: move the adjustment sequence of the node out of the
in-progress table, resolve it, and record it in the output table. -/
def visit_adjustments (icx : InferCtxt) (i : HirId) (s : WState) :
    Except RunErr WState :=
  match lookupA s.fcx_tables.adjustments i with
  | none =>
      .ok { s with fcx_tables :=
        { s.fcx_tables with adjustments := eraseA s.fcx_tables.adjustments i } }
  | some adjustment =>
      match resolveAdjList icx s.st adjustment with
      | .error e => .error e
      | .ok (resolved, st') =>
          .ok { fcx_tables :=
                  { s.fcx_tables with adjustments := eraseA s.fcx_tables.adjustments i },
                tables :=
                  { s.tables with adjustments := insertA s.tables.adjustments i resolved },
                st := st' }

/-- `visit_pat_adjustments`: same migration for pattern adjustments. -/
def visit_pat_adjustments (icx : InferCtxt) (i : HirId) (s : WState) :
    Except RunErr WState :=
  match lookupA s.fcx_tables.pat_adjustments i with
  | none =>
      .ok { s with fcx_tables :=
        { s.fcx_tables with pat_adjustments := eraseA s.fcx_tables.pat_adjustments i } }
  | some adjustment =>
      match resolveAdjList icx s.st adjustment with
      | .error e => .error e
      | .ok (resolved, st') =>
          .ok { fcx_tables :=
                  { s.fcx_tables with pat_adjustments := eraseA s.fcx_tables.pat_adjustments i },
                tables :=
                  { s.tables with pat_adjustments := insertA s.tables.pat_adjustments i resolved },
                st := st' }

/-- The first step of `visit_node_id`: export the type-dependent
resolution verbatim (a move out of the in-progress table). -/
def move_type_dependent_def (i : HirId) (s : WState) : WState :=
  match lookupA s.fcx_tables.type_dependent_defs i with
  | some def_ =>
      { s with
        fcx_tables :=
          { s.fcx_tables with
            type_dependent_defs := eraseA s.fcx_tables.type_dependent_defs i },
        tables :=
          { s.tables with
            type_dependent_defs := insertA s.tables.type_dependent_defs i def_ } }
  | none => s

/-- `visit_node_id`: move the type-dependent resolution verbatim, migrate
the adjustments, resolve and write the type of the node (asserting it free of
inference variables), then resolve and write its substitutions if any
were recorded (again under an assert). -/
def visit_node_id (icx : InferCtxt) (i : HirId) (s : WState) :
    Except RunErr WState :=
  let s := move_type_dependent_def i s
  match visit_adjustments icx i s with
  | .error e => .error e
  | .ok s =>
    match node_ty s.fcx_tables s.st.hasErrors i with
    | .error e => .error e
    | .ok n_ty =>
      match resolveTy icx s.st n_ty with
      | .error e => .error e
      | .ok (n_ty, st') =>
        match write_ty_to_tables s.tables i n_ty with
        | .error e => .error e
        | .ok tb =>
          let s := { s with tables := tb, st := st' }
          match lookupA s.fcx_tables.node_substs i with
          | none => .ok s
          | some substs =>
            match resolveTyList icx s.st substs with
            | .error e => .error e
            | .ok (substs, stb) =>
              if tyListNeedsInfer substs then .error RunErr.assertNoInfer
              else .ok { s with
                st := stb,
                tables :=
                  { s.tables with
                    node_substs := insertA s.tables.node_substs i substs } }

/-- The per-node steps of `Visitor::visit_pat` for the writeback
context: copy the binding mode verbatim for binding patterns (its
absence is a panic), migrate the pattern adjustments, finalize the
node.  The walk into subpatterns follows in `visit_pat`. -/
def visit_pat_node (icx : InferCtxt) (p : Pat) (s : WState) : Except RunErr WState :=
  let s0 : Except RunErr WState :=
    match p with
    | .binding i =>
        (match lookupA s.fcx_tables.pat_binding_modes i with
         | none => .error RunErr.missingBindingMode
         | some bm =>
             .ok { s with tables :=
               { s.tables with
                 pat_binding_modes := insertA s.tables.pat_binding_modes i bm } })
    | _ => .ok s
  match s0 with
  | .error e => .error e
  | .ok s1 =>
    match visit_pat_adjustments icx p.id s1 with
    | .error e => .error e
    | .ok s2 => visit_node_id icx p.id s2

/-- `Visitor::visit_pat`: the per-node steps, then `walk_pat` into the
subpatterns. -/
def visit_pat (icx : InferCtxt) : Pat → WState → Except RunErr WState
  | .sub i q, s =>
      (match visit_pat_node icx (.sub i q) s with
       | .error e => .error e
       | .ok s3 => visit_pat icx q s3)
  | p, s => visit_pat_node icx p s

/-- The closure-argument loop of `visit_expr`: finalize each argument
node. -/
def visit_arg_ids (icx : InferCtxt) : List Arg → WState → Except RunErr WState
  | [], s => .ok s
  | a :: rest, s =>
      match visit_node_id icx a.id s with
      | .error e => .error e
      | .ok s' => visit_arg_ids icx rest s'

/-- The argument-pattern loop of `walk_body`: visit each argument
pattern. -/
def visit_arg_pats (icx : InferCtxt) : List Arg → WState → Except RunErr WState
  | [], s => .ok s
  | a :: rest, s =>
      match visit_pat icx a.pat s with
      | .error e => .error e
      | .ok s' => visit_arg_pats icx rest s'

/-- `Visitor::visit_expr`: structural rewrite first, then finalize the
node; a closure additionally finalizes its argument nodes and visits its
nested body (argument patterns, then the body expression); finally
`walk_expr` into the children (spelled per node kind below).  With
nested visiting disabled, walking a closure visits nothing further. -/
def visit_expr (icx : InferCtxt) : Expr → WState → Except RunErr WState
  | .lit i, s =>
      (match fix_scalar_builtin_expr icx (.lit i) s with
       | .error er => .error er
       | .ok s1 => visit_node_id icx i s1)
  | .unary i uop inner, s =>
      (match fix_scalar_builtin_expr icx (.unary i uop inner) s with
       | .error er => .error er
       | .ok s1 =>
         match visit_node_id icx i s1 with
         | .error er => .error er
         | .ok s2 => visit_expr icx inner s2)
  | .binary i op lhs rhs, s =>
      (match fix_scalar_builtin_expr icx (.binary i op lhs rhs) s with
       | .error er => .error er
       | .ok s1 =>
         match visit_node_id icx i s1 with
         | .error er => .error er
         | .ok s2 =>
           match visit_expr icx lhs s2 with
           | .error er => .error er
           | .ok s3 => visit_expr icx rhs s3)
  | .assignOp i op lhs rhs, s =>
      (match fix_scalar_builtin_expr icx (.assignOp i op lhs rhs) s with
       | .error er => .error er
       | .ok s1 =>
         match visit_node_id icx i s1 with
         | .error er => .error er
         | .ok s2 =>
           match visit_expr icx lhs s2 with
           | .error er => .error er
           | .ok s3 => visit_expr icx rhs s3)
  | .closure i args body, s =>
      (match fix_scalar_builtin_expr icx (.closure i args body) s with
       | .error er => .error er
       | .ok s1 =>
         match visit_node_id icx i s1 with
         | .error er => .error er
         | .ok s2 =>
           match visit_arg_ids icx args s2 with
           | .error er => .error er
           | .ok s3 =>
             match visit_arg_pats icx args s3 with
             | .error er => .error er
             | .ok s4 => visit_expr icx body s4)

/-! ## Side-table passes -/

/-- `visit_upvar_borrow_map`: by-value captures move verbatim; by-ref
captures have their region resolved. -/
def upvar_entries (icx : InferCtxt) :
    List (UpvarId × UpvarCapture) → WState → Except RunErr WState
  | [], s => .ok s
  | (uid, cap) :: rest, s =>
      match cap with
      | .byValue =>
          upvar_entries icx rest
            { s with tables :=
              { s.tables with
                upvar_capture_map :=
                  insertA s.tables.upvar_capture_map uid UpvarCapture.byValue } }
      | .byRef kind r =>
          match resolveRegion icx s.st r with
          | .error e => .error e
          | .ok (r', st') =>
              upvar_entries icx rest
                { s with
                  st := st',
                  tables :=
                    { s.tables with
                      upvar_capture_map :=
                        insertA s.tables.upvar_capture_map uid (UpvarCapture.byRef kind r') } }

def visit_upvar_borrow_map (icx : InferCtxt) (s : WState) : Except RunErr WState :=
  upvar_entries icx s.fcx_tables.upvar_capture_map s

/-- Re-keying of a side-table entry: re-attach the common owning-item
component to the function-local index. -/
def rekey (root : Nat) (k : HirId) : HirId :=
  { owner := root, local_id := k.local_id }

/-- The closure-type loop of `visit_closures`. -/
def closure_ty_entries (icx : InferCtxt) (root : Nat) :
    List (HirId × Ty) → WState → Except RunErr WState
  | [], s => .ok s
  | (k, closure_ty) :: rest, s =>
      match resolveTy icx s.st closure_ty with
      | .error e => .error e
      | .ok (closure_ty, st') =>
          closure_ty_entries icx root rest
            { s with
              st := st',
              tables :=
                { s.tables with
                  closure_tys := insertA s.tables.closure_tys (rekey root k) closure_ty } }

/-- The closure-kind loop of `visit_closures`: kinds are concrete tags,
moved verbatim. -/
def closure_kind_entries (root : Nat) (l : List (HirId × Nat)) (tbl : TypeckTables) :
    TypeckTables :=
  match l with
  | [] => tbl
  | (k, kind) :: rest =>
      closure_kind_entries root rest
        { tbl with closure_kinds := insertA tbl.closure_kinds (rekey root k) kind }

def visit_closures (icx : InferCtxt) (s : WState) : Except RunErr WState :=
  match s.fcx_tables.local_id_root with
  | none => .error RunErr.missingRoot
  | some root =>
      match closure_ty_entries icx root s.fcx_tables.closure_tys s with
      | .error e => .error e
      | .ok s' =>
          .ok { s' with tables :=
            closure_kind_entries root s'.fcx_tables.closure_kinds s'.tables }

/-- `visit_cast_types`: cast kinds are concrete tags, moved verbatim
under the re-attached key. -/
def cast_kind_entries (root : Nat) (l : List (HirId × Nat)) (tbl : TypeckTables) :
    TypeckTables :=
  match l with
  | [] => tbl
  | (k, kind) :: rest =>
      cast_kind_entries root rest
        { tbl with cast_kinds := insertA tbl.cast_kinds (rekey root k) kind }

def visit_cast_types (s : WState) : Except RunErr WState :=
  match s.fcx_tables.local_id_root with
  | none => .error RunErr.missingRoot
  | some root =>
      .ok { s with tables := cast_kind_entries root s.fcx_tables.cast_kinds s.tables }

/-- `visit_free_region_map`: the whole map must lift to the global
context (`expect("all regions in free-region-map are global")`), then it
replaces the output field. -/
def visit_free_region_map (s : WState) : Except RunErr WState :=
  if s.fcx_tables.free_region_map.all
       (fun p => !regionNeedsInfer p.1 && !regionNeedsInfer p.2) then
    .ok { s with tables :=
      { s.tables with free_region_map := s.fcx_tables.free_region_map } }
  else .error RunErr.liftBug

/-- `visit_anon_types`: resolve each opaque-type witness, rewrite its
regions through `anon_region` (diagnosing the disallowed ones), and
write the result directly into the node-type map. -/
def anon_entries (icx : InferCtxt) :
    List (HirId × Ty) → WState → Except RunErr WState
  | [], s => .ok s
  | (node_id, concrete_ty) :: rest, s =>
      match resolveTy icx s.st concrete_ty with
      | .error e => .error e
      | .ok (inside_ty, st1) =>
          match anon_fold_ty inside_ty st1 inside_ty with
          | .error e => .error e
          | .ok (outside_ty, st2) =>
              anon_entries icx rest
                { s with
                  st := st2,
                  tables :=
                    { s.tables with
                      node_types := insertA s.tables.node_types node_id outside_ty } }

def visit_anon_types (icx : InferCtxt) (anon_types : List (HirId × Ty)) (s : WState) :
    Except RunErr WState :=
  anon_entries icx anon_types s

/-- `visit_generator_sigs`: absent signatures move verbatim; present ones
have their yield and return types resolved. -/
def generator_sig_entries (icx : InferCtxt) (root : Nat) :
    List (HirId × Option GenSig) → WState → Except RunErr WState
  | [], s => .ok s
  | (k, none) :: rest, s =>
      generator_sig_entries icx root rest
        { s with tables :=
          { s.tables with
            generator_sigs := insertA s.tables.generator_sigs (rekey root k) none } }
  | (k, some gs) :: rest, s =>
      match resolveTy icx s.st gs.yield_ty with
      | .error e => .error e
      | .ok (y, st1) =>
          match resolveTy icx st1 gs.return_ty with
          | .error e => .error e
          | .ok (r, st2) =>
              generator_sig_entries icx root rest
                { s with
                  st := st2,
                  tables :=
                    { s.tables with
                      generator_sigs :=
                        insertA s.tables.generator_sigs (rekey root k)
                          (some { yield_ty := y, return_ty := r }) } }

def visit_generator_sigs (icx : InferCtxt) (s : WState) : Except RunErr WState :=
  match s.fcx_tables.local_id_root with
  | none => .error RunErr.missingRoot
  | some root => generator_sig_entries icx root s.fcx_tables.generator_sigs s

/-- `visit_generator_interiors`: resolve each captured-state snapshot. -/
def generator_interior_entries (icx : InferCtxt) (root : Nat) :
    List (HirId × Ty) → WState → Except RunErr WState
  | [], s => .ok s
  | (k, interior) :: rest, s =>
      match resolveTy icx s.st interior with
      | .error e => .error e
      | .ok (interior, st') =>
          generator_interior_entries icx root rest
            { s with
              st := st',
              tables :=
                { s.tables with
                  generator_interiors :=
                    insertA s.tables.generator_interiors (rekey root k) interior } }

def visit_generator_interiors (icx : InferCtxt) (s : WState) : Except RunErr WState :=
  match s.fcx_tables.local_id_root with
  | none => .error RunErr.missingRoot
  | some root => generator_interior_entries icx root s.fcx_tables.generator_interiors s

/-- `visit_liberated_fn_sigs`: resolve each liberated signature. -/
def liberated_sig_entries (icx : InferCtxt) (root : Nat) :
    List (HirId × FnSig) → WState → Except RunErr WState
  | [], s => .ok s
  | (k, fn_sig) :: rest, s =>
      match resolveFnSig icx s.st fn_sig with
      | .error e => .error e
      | .ok (fn_sig, st') =>
          liberated_sig_entries icx root rest
            { s with
              st := st',
              tables :=
                { s.tables with
                  liberated_fn_sigs :=
                    insertA s.tables.liberated_fn_sigs (rekey root k) fn_sig } }

def visit_liberated_fn_sigs (icx : InferCtxt) (s : WState) : Except RunErr WState :=
  match s.fcx_tables.local_id_root with
  | none => .error RunErr.missingRoot
  | some root => liberated_sig_entries icx root s.fcx_tables.liberated_fn_sigs s

/-- `visit_fru_field_types`: resolve each record-update field-type
list. -/
def fru_entries (icx : InferCtxt) (root : Nat) :
    List (HirId × List Ty) → WState → Except RunErr WState
  | [], s => .ok s
  | (k, ftys) :: rest, s =>
      match resolveTyList icx s.st ftys with
      | .error e => .error e
      | .ok (ftys, st') =>
          fru_entries icx root rest
            { s with
              st := st',
              tables :=
                { s.tables with
                  fru_field_types :=
                    insertA s.tables.fru_field_types (rekey root k) ftys } }

def visit_fru_field_types (icx : InferCtxt) (s : WState) : Except RunErr WState :=
  match s.fcx_tables.local_id_root with
  | none => .error RunErr.missingRoot
  | some root => fru_entries icx root s.fcx_tables.fru_field_types s

/-- The node identifiers a whole-body run finalizes, in visit order. -/
def bodyIds (b : Body) : List HirId :=
  b.args.map Arg.id ++ (b.args.flatMap (fun a => a.pat.ids) ++ b.value.ids)

/-- `resolve_type_vars_in_body`, the entry point: visit the argument
nodes and the body, run every side-table pass, move the used-trait-import
set, and tag the output with the error taint. -/
def resolve_type_vars_in_body (icx : InferCtxt) (anon_types : List (HirId × Ty))
    (owner : Nat) (body : Body) (fcx0 : TypeckTables) (st0 : St) :
    Except RunErr (TypeckTables × St) :=
  let s0 : WState :=
    { fcx_tables := fcx0,
      tables := { local_id_root := some owner },
      st := st0 }
  match visit_arg_ids icx body.args s0 with
  | .error e => .error e
  | .ok s1 =>
    match visit_arg_pats icx body.args s1 with
    | .error e => .error e
    | .ok s2 =>
      match visit_expr icx body.value s2 with
      | .error e => .error e
      | .ok s3 =>
        match visit_upvar_borrow_map icx s3 with
        | .error e => .error e
        | .ok s4 =>
          match visit_closures icx s4 with
          | .error e => .error e
          | .ok s5 =>
            match visit_liberated_fn_sigs icx s5 with
            | .error e => .error e
            | .ok s6 =>
              match visit_fru_field_types icx s6 with
              | .error e => .error e
              | .ok s7 =>
                match visit_anon_types icx anon_types s7 with
                | .error e => .error e
                | .ok s8 =>
                  match visit_cast_types s8 with
                  | .error e => .error e
                  | .ok s9 =>
                    match visit_free_region_map s9 with
                    | .error e => .error e
                    | .ok s10 =>
                      match visit_generator_sigs icx s10 with
                      | .error e => .error e
                      | .ok s11 =>
                        match visit_generator_interiors icx s11 with
                        | .error e => .error e
                        | .ok s12 =>
                          let used := s12.fcx_tables.used_trait_imports
                          let tbl :=
                            { s12.tables with
                              used_trait_imports := used,
                              tainted_by_errors := s12.st.hasErrors }
                          .ok (tbl, s12.st)

/-! ## Frame and invariant predicates

`SideUnchanged` records the table fields untouched by the tree
traversal (equally usable as a frame for the in-progress table, whose
side-table fields the traversal never writes).  `StepKeys L t t'` says
a traversal step bounded by the id list `L` only prepends keys drawn
from `L` (in reverse visit order) to the six traversal-written maps.
`ValuesStep` says every entry of the new table either was already
present or satisfies the no-inference-variable predicate for its map;
`TablesOk` is the induced invariant.  `PassKeys` records, for one
side-table pass, exactly which key list each map of the output table
gains. -/

structure SideUnchanged (t t' : TypeckTables) : Prop where
  root : t'.local_id_root = t.local_id_root
  uv : t'.upvar_capture_map = t.upvar_capture_map
  ct : t'.closure_tys = t.closure_tys
  ck : t'.closure_kinds = t.closure_kinds
  cast : t'.cast_kinds = t.cast_kinds
  lib : t'.liberated_fn_sigs = t.liberated_fn_sigs
  fru : t'.fru_field_types = t.fru_field_types
  gs : t'.generator_sigs = t.generator_sigs
  gi : t'.generator_interiors = t.generator_interiors
  used : t'.used_trait_imports = t.used_trait_imports
  frm : t'.free_region_map = t.free_region_map
  taint : t'.tainted_by_errors = t.tainted_by_errors

structure StepKeys (L : List HirId) (t t' : TypeckTables) : Prop where
  nt : ∃ l, l.Sublist L.reverse ∧ keysA t'.node_types = l ++ keysA t.node_types
  ns : ∃ l, l.Sublist L.reverse ∧ keysA t'.node_substs = l ++ keysA t.node_substs
  tdd : ∃ l, l.Sublist L.reverse ∧
    keysA t'.type_dependent_defs = l ++ keysA t.type_dependent_defs
  adj : ∃ l, l.Sublist L.reverse ∧ keysA t'.adjustments = l ++ keysA t.adjustments
  pbm : ∃ l, l.Sublist L.reverse ∧
    keysA t'.pat_binding_modes = l ++ keysA t.pat_binding_modes
  padj : ∃ l, l.Sublist L.reverse ∧
    keysA t'.pat_adjustments = l ++ keysA t.pat_adjustments
  side : SideUnchanged t t'

def gsigNeedsInfer : Option GenSig → Bool
  | none => false
  | some g => needsInfer g.yield_ty || needsInfer g.return_ty

def frmPairOk (p : Region × Region) : Prop :=
  regionNeedsInfer p.1 = false ∧ regionNeedsInfer p.2 = false

structure ValuesStep (t t' : TypeckTables) : Prop where
  nt : ∀ p ∈ t'.node_types, p ∈ t.node_types ∨ needsInfer p.2 = false
  ns : ∀ p ∈ t'.node_substs, p ∈ t.node_substs ∨ tyListNeedsInfer p.2 = false
  adj : ∀ p ∈ t'.adjustments, p ∈ t.adjustments ∨ adjListNeedsInfer p.2 = false
  padj : ∀ p ∈ t'.pat_adjustments, p ∈ t.pat_adjustments ∨ adjListNeedsInfer p.2 = false
  uv : ∀ p ∈ t'.upvar_capture_map, p ∈ t.upvar_capture_map ∨ upvarNeedsInfer p.2 = false
  ct : ∀ p ∈ t'.closure_tys, p ∈ t.closure_tys ∨ needsInfer p.2 = false
  lib : ∀ p ∈ t'.liberated_fn_sigs, p ∈ t.liberated_fn_sigs ∨ sigNeedsInfer p.2 = false
  fru : ∀ p ∈ t'.fru_field_types, p ∈ t.fru_field_types ∨ tyListNeedsInfer p.2 = false
  gs : ∀ p ∈ t'.generator_sigs, p ∈ t.generator_sigs ∨ gsigNeedsInfer p.2 = false
  gi : ∀ p ∈ t'.generator_interiors, p ∈ t.generator_interiors ∨ needsInfer p.2 = false
  frm : ∀ p ∈ t'.free_region_map, p ∈ t.free_region_map ∨ frmPairOk p

structure TablesOk (t : TypeckTables) : Prop where
  nt : ∀ p ∈ t.node_types, needsInfer p.2 = false
  ns : ∀ p ∈ t.node_substs, tyListNeedsInfer p.2 = false
  adj : ∀ p ∈ t.adjustments, adjListNeedsInfer p.2 = false
  padj : ∀ p ∈ t.pat_adjustments, adjListNeedsInfer p.2 = false
  uv : ∀ p ∈ t.upvar_capture_map, upvarNeedsInfer p.2 = false
  ct : ∀ p ∈ t.closure_tys, needsInfer p.2 = false
  lib : ∀ p ∈ t.liberated_fn_sigs, sigNeedsInfer p.2 = false
  fru : ∀ p ∈ t.fru_field_types, tyListNeedsInfer p.2 = false
  gs : ∀ p ∈ t.generator_sigs, gsigNeedsInfer p.2 = false
  gi : ∀ p ∈ t.generator_interiors, needsInfer p.2 = false
  frm : ∀ p ∈ t.free_region_map, frmPairOk p

structure PassKeys (ant : List HirId) (auv : List UpvarId)
    (act ack acast alib afru ags agi : List HirId)
    (t t' : TypeckTables) : Prop where
  nt : keysA t'.node_types = ant ++ keysA t.node_types
  ns : keysA t'.node_substs = keysA t.node_substs
  tdd : keysA t'.type_dependent_defs = keysA t.type_dependent_defs
  adj : keysA t'.adjustments = keysA t.adjustments
  pbm : keysA t'.pat_binding_modes = keysA t.pat_binding_modes
  padj : keysA t'.pat_adjustments = keysA t.pat_adjustments
  uv : keysA t'.upvar_capture_map = auv ++ keysA t.upvar_capture_map
  ct : keysA t'.closure_tys = act ++ keysA t.closure_tys
  ck : keysA t'.closure_kinds = ack ++ keysA t.closure_kinds
  cast : keysA t'.cast_kinds = acast ++ keysA t.cast_kinds
  lib : keysA t'.liberated_fn_sigs = alib ++ keysA t.liberated_fn_sigs
  fru : keysA t'.fru_field_types = afru ++ keysA t.fru_field_types
  gs : keysA t'.generator_sigs = ags ++ keysA t.generator_sigs
  gi : keysA t'.generator_interiors = agi ++ keysA t.generator_interiors

/-! ## Concrete example inputs (used to exercise the theorems) -/

def exIcx : InferCtxt := ⟨[], []⟩

def exBody : Body :=
  { args := [{ id := ⟨0, 1⟩, pat := .binding ⟨0, 2⟩ }], value := .lit ⟨0, 3⟩ }

def exFcx : TypeckTables :=
  { local_id_root := some 0,
    node_types := [(⟨0, 1⟩, .int 32), (⟨0, 2⟩, .int 32), (⟨0, 3⟩, .bool)],
    pat_binding_modes := [(⟨0, 2⟩, .byValue false)] }

def exRun : Except RunErr (TypeckTables × St) :=
  resolve_type_vars_in_body exIcx [] 0 exBody exFcx ⟨false, []⟩

def exTbl : TypeckTables :=
  match exRun with
  | .ok p => p.1
  | .error _ => {}

def exStf : St :=
  match exRun with
  | .ok p => p.2
  | .error _ => ⟨false, []⟩

def exCloExpr : Expr :=
  .closure ⟨0, 10⟩ [{ id := ⟨0, 11⟩, pat := .binding ⟨0, 12⟩ }] (.lit ⟨0, 13⟩)

def exCloState : WState :=
  { fcx_tables :=
      { local_id_root := some 0,
        node_types := [(⟨0, 10⟩, .adt 1), (⟨0, 11⟩, .bool), (⟨0, 12⟩, .bool),
                       (⟨0, 13⟩, .int 32)],
        pat_binding_modes := [(⟨0, 12⟩, .byValue false)] },
    tables := {},
    st := ⟨false, []⟩ }

def exCloRes : WState :=
  match visit_expr exIcx exCloExpr exCloState with
  | .ok s => s
  | .error _ => exCloState

def exPatState : WState :=
  { fcx_tables :=
      { local_id_root := some 0,
        node_types := [(⟨0, 2⟩, .bool)],
        pat_binding_modes := [(⟨0, 2⟩, .byRef true)] },
    tables := {},
    st := ⟨false, []⟩ }

def exPatRes : WState :=
  match visit_pat exIcx (.binding ⟨0, 2⟩) exPatState with
  | .ok s => s
  | .error _ => exPatState

def exFixState : WState :=
  { fcx_tables :=
      { local_id_root := some 0,
        node_types := [(⟨0, 1⟩, .int 32), (⟨0, 2⟩, .int 32)],
        type_dependent_defs := [(⟨0, 0⟩, 7)],
        node_substs := [(⟨0, 0⟩, [Ty.int 32])],
        adjustments :=
          [(⟨0, 1⟩, [{ kind := .borrowRef .ReStatic false, target := .int 32 },
                     { kind := .other 0, target := .int 32 }]),
           (⟨0, 2⟩, [{ kind := .other 0, target := .int 32 }])] },
    tables := {},
    st := ⟨false, []⟩ }

/-! ## Association-list lemmas -/

@[simp] theorem lookupA_nil {K V : Type} [DecidableEq K] (k : K) :
    lookupA ([] : List (K × V)) k = none := rfl

@[simp] theorem lookupA_cons {K V : Type} [DecidableEq K]
    (p : K × V) (l : List (K × V)) (k : K) :
    lookupA (p :: l) k = if p.1 = k then some p.2 else lookupA l k := rfl

@[simp] theorem keysA_nil {K V : Type} : keysA ([] : List (K × V)) = [] := rfl

@[simp] theorem keysA_cons {K V : Type} (p : K × V) (l : List (K × V)) :
    keysA (p :: l) = p.1 :: keysA l := rfl

theorem keysA_append {K V : Type} (l l' : List (K × V)) :
    keysA (l ++ l') = keysA l ++ keysA l' := by
  simp [keysA]

theorem lookupA_eraseA_self {K V : Type} [DecidableEq K] (l : List (K × V)) (k : K) :
    lookupA (eraseA l k) k = none := by
  induction l with
  | nil => rfl
  | cons p r ih =>
      by_cases h : p.1 = k
      · simp [eraseA, h, ih]
      · simp [eraseA, h, ih]

theorem lookupA_insertA_self {K V : Type} [DecidableEq K] (l : List (K × V)) (k : K) (v : V) :
    lookupA (insertA l k v) k = some v := by
  simp [insertA]

theorem lookupA_modifyA_self {K V : Type} [DecidableEq K]
    (l : List (K × V)) (k : K) (f : V → V) :
    lookupA (modifyA l k f) k = (lookupA l k).map f := by
  induction l with
  | nil => rfl
  | cons p r ih =>
      by_cases h : p.1 = k
      · simp [modifyA, h]
      · simp [modifyA, h, ih]

theorem keysA_insertA {K V : Type} (l : List (K × V)) (k : K) (v : V) :
    keysA (insertA l k v) = k :: keysA l := rfl

theorem mem_keysA_of_lookupA {K V : Type} [DecidableEq K]
    {l : List (K × V)} {k : K} {v : V} (h : lookupA l k = some v) : k ∈ keysA l := by
  induction l with
  | nil => simp at h
  | cons p r ih =>
      by_cases hp : p.1 = k
      · rw [keysA_cons, hp]
        exact List.mem_cons_self _ _
      · rw [lookupA_cons, if_neg hp] at h
        exact List.mem_cons_of_mem _ (ih h)

theorem lookupA_isSome_of_mem_keysA {K V : Type} [DecidableEq K]
    {l : List (K × V)} {k : K} (h : k ∈ keysA l) : (lookupA l k).isSome = true := by
  induction l with
  | nil => simp at h
  | cons p r ih =>
      by_cases hp : p.1 = k
      · simp [hp]
      · rw [keysA_cons, List.mem_cons] at h
        rcases h with h | h
        · exact absurd h.symm hp
        · simpa [hp] using ih h

/-! ## Folding-engine lemmas -/

theorem resolveVarsRegion_id (icx : InferCtxt) {r : Region}
    (h : regionNeedsInfer r = false) : resolveVarsRegion icx r = r := by
  cases r <;> simp_all [resolveVarsRegion, regionNeedsInfer]

theorem resolveVarsTy_id (icx : InferCtxt) :
    ∀ {t : Ty}, needsInfer t = false → resolveVarsTy icx t = t := by
  intro t
  induction t with
  | ref r u ih =>
      intro h
      simp only [needsInfer, Bool.or_eq_false_iff] at h
      simp [resolveVarsTy, resolveVarsRegion_id icx h.1, ih h.2]
  | pair a b iha ihb =>
      intro h
      simp only [needsInfer, Bool.or_eq_false_iff] at h
      simp [resolveVarsTy, iha h.1, ihb h.2]
  | infer v => intro h; simp [needsInfer] at h
  | _ => intro _; rfl

theorem fullyResolveTy_concrete (icx : InferCtxt) {t : Ty}
    (h : needsInfer t = false) : fullyResolveTy icx t = .ok t := by
  simp [fullyResolveTy, resolveVarsTy_id icx h, h]

theorem fullyResolveRegion_concrete (icx : InferCtxt) {r : Region}
    (h : regionNeedsInfer r = false) : fullyResolveRegion icx r = .ok r := by
  simp [fullyResolveRegion, resolveVarsRegion_id icx h, h]

theorem fullyResolveTy_ok_noInfer {icx : InferCtxt} {t u : Ty}
    (h : fullyResolveTy icx t = .ok u) : needsInfer u = false := by
  by_cases hn : needsInfer (resolveVarsTy icx t) = true
  · unfold fullyResolveTy at h
    simp [hn] at h
  · simp only [Bool.not_eq_true] at hn
    unfold fullyResolveTy at h
    simp [hn] at h
    rw [← h]
    exact hn

theorem fullyResolveRegion_ok_noInfer {icx : InferCtxt} {r u : Region}
    (h : fullyResolveRegion icx r = .ok u) : regionNeedsInfer u = false := by
  by_cases hn : regionNeedsInfer (resolveVarsRegion icx r) = true
  · unfold fullyResolveRegion at h
    simp [hn] at h
  · simp only [Bool.not_eq_true] at hn
    unfold fullyResolveRegion at h
    simp [hn] at h
    rw [← h]
    exact hn

theorem fold_ty_noInfer (icx : InferCtxt) (st : St) (t : Ty) :
    needsInfer (fold_ty icx st t).1 = false := by
  unfold fold_ty
  split
  · exact fullyResolveTy_ok_noInfer (by assumption)
  · rfl

theorem fold_region_noInfer (icx : InferCtxt) (st : St) (r : Region) :
    regionNeedsInfer (fold_region icx st r).1 = false := by
  unfold fold_region
  split
  · exact fullyResolveRegion_ok_noInfer (by assumption)
  · rfl

theorem resolveTy_eq (icx : InferCtxt) (st : St) (t : Ty) :
    resolveTy icx st t = .ok (fold_ty icx st t) := by
  unfold resolveTy liftTy
  simp [fold_ty_noInfer]

theorem resolveRegion_eq (icx : InferCtxt) (st : St) (r : Region) :
    resolveRegion icx st r = .ok (fold_region icx st r) := by
  unfold resolveRegion liftRegion
  simp [fold_region_noInfer]

theorem fold_ty_list_noInfer (icx : InferCtxt) :
    ∀ (st : St) (ts : List Ty), tyListNeedsInfer (fold_ty_list icx st ts).1 = false := by
  intro st ts
  induction ts generalizing st with
  | nil => rfl
  | cons t rest ih =>
      simp only [fold_ty_list, tyListNeedsInfer, List.any_cons, Bool.or_eq_false_iff]
      exact ⟨fold_ty_noInfer icx st t, ih _⟩

theorem resolveTyList_eq (icx : InferCtxt) (st : St) (ts : List Ty) :
    resolveTyList icx st ts = .ok (fold_ty_list icx st ts) := by
  unfold resolveTyList
  simp [fold_ty_list_noInfer]

theorem fold_adjustment_noInfer (icx : InferCtxt) (st : St) (a : Adjustment) :
    adjNeedsInfer (fold_adjustment icx st a).1 = false := by
  unfold fold_adjustment
  cases h : a.kind <;>
    simp [adjNeedsInfer, fold_region_noInfer, fold_ty_noInfer]

theorem fold_adj_list_noInfer (icx : InferCtxt) :
    ∀ (st : St) (l : List Adjustment),
      adjListNeedsInfer (fold_adj_list icx st l).1 = false := by
  intro st l
  induction l generalizing st with
  | nil => rfl
  | cons a rest ih =>
      simp only [fold_adj_list, adjListNeedsInfer, List.any_cons, Bool.or_eq_false_iff]
      exact ⟨fold_adjustment_noInfer icx st a, ih _⟩

theorem resolveAdjList_eq (icx : InferCtxt) (st : St) (l : List Adjustment) :
    resolveAdjList icx st l = .ok (fold_adj_list icx st l) := by
  unfold resolveAdjList
  simp [fold_adj_list_noInfer]

theorem fold_fn_sig_noInfer (icx : InferCtxt) (st : St) (s : FnSig) :
    sigNeedsInfer (fold_fn_sig icx st s).1 = false := by
  unfold fold_fn_sig sigNeedsInfer
  simp [fold_ty_list_noInfer, fold_ty_noInfer]

theorem resolveFnSig_eq (icx : InferCtxt) (st : St) (s : FnSig) :
    resolveFnSig icx st s = .ok (fold_fn_sig icx st s) := by
  unfold resolveFnSig
  simp [fold_fn_sig_noInfer]

/-! ## Claims C2, C5, C7, C8: the folding engine -/

/-- C8. Resolution on fully-concrete input is the identity: a type that
already contains no inference variable folds to itself, with the session
untouched, both through the folding engine and through the full
`resolve` (fold plus lift). -/
theorem C8_concrete_roundtrip (icx : InferCtxt) (st : St) (t : Ty)
    (h : needsInfer t = false) :
    fold_ty icx st t = (t, st) ∧ resolveTy icx st t = .ok (t, st) := by
  have hf : fold_ty icx st t = (t, st) := by
    unfold fold_ty
    rw [fullyResolveTy_concrete icx h]
  exact ⟨hf, by rw [resolveTy_eq, hf]⟩

theorem C8_witness :
    needsInfer (Ty.ref Region.ReStatic Ty.bool) = false ∧
    fold_ty ⟨[], []⟩ ⟨false, []⟩ (Ty.ref Region.ReStatic Ty.bool) =
      (Ty.ref Region.ReStatic Ty.bool, ⟨false, []⟩) :=
  ⟨by decide,
   (C8_concrete_roundtrip ⟨[], []⟩ ⟨false, []⟩ (Ty.ref Region.ReStatic Ty.bool)
      (by decide)).1⟩

/-- C2. `Resolver::fold_ty`: if the full-resolution query succeeds the
resolved type is used and no diagnostic is emitted; if it fails the
error-type placeholder is substituted and the "needs annotation"
diagnostic is appended exactly when no error had been recorded for the
unit. -/
theorem C2_fold_ty_ambiguity (icx : InferCtxt) (st : St) (t : Ty) :
    (∀ u, fullyResolveTy icx t = .ok u → fold_ty icx st t = (u, st)) ∧
    (∀ e, fullyResolveTy icx t = .error e →
      (fold_ty icx st t).1 = Ty.err ∧
      ((fold_ty icx st t).2.diags = st.diags ++ [Diag.needTypeInfo t] ↔
        st.hasErrors = false) ∧
      (st.hasErrors = true → (fold_ty icx st t).2 = st)) := by
  constructor
  · intro u hu
    unfold fold_ty
    rw [hu]
  · intro e he
    unfold fold_ty
    rw [he]
    unfold report_error
    cases hst : st.hasErrors with
    | false => simp
    | true => simp

theorem C2_witness :
    (fold_ty ⟨[(0, Ty.bool)], []⟩ ⟨false, []⟩ (Ty.infer 0) = (Ty.bool, ⟨false, []⟩)) ∧
    ((fold_ty ⟨[], []⟩ ⟨false, []⟩ (Ty.infer 1)).1 = Ty.err ∧
      ((fold_ty ⟨[], []⟩ ⟨false, []⟩ (Ty.infer 1)).2.diags =
          [] ++ [Diag.needTypeInfo (Ty.infer 1)] ↔ false = false)) :=
  ⟨(C2_fold_ty_ambiguity ⟨[(0, Ty.bool)], []⟩ ⟨false, []⟩ (Ty.infer 0)).1 Ty.bool
      (by rfl),
   ⟨((C2_fold_ty_ambiguity ⟨[], []⟩ ⟨false, []⟩ (Ty.infer 1)).2 () (by rfl)).1,
    ((C2_fold_ty_ambiguity ⟨[], []⟩ ⟨false, []⟩ (Ty.infer 1)).2 () (by rfl)).2.1⟩⟩

/-- C5. `Resolver::fold_region`: a resolvable region is used as resolved;
an unresolvable one is replaced by the static region with the session
left untouched — no diagnostic, asymmetrically to type resolution. -/
theorem C5_fold_region_silent (icx : InferCtxt) (st : St) (r : Region) :
    (∀ u, fullyResolveRegion icx r = .ok u → fold_region icx st r = (u, st)) ∧
    (∀ e, fullyResolveRegion icx r = .error e →
      fold_region icx st r = (Region.ReStatic, st)) := by
  constructor
  · intro u hu
    unfold fold_region
    rw [hu]
  · intro e he
    unfold fold_region
    rw [he]

theorem C5_witness :
    (fold_region ⟨[], [(0, Region.ReEarlyBound 3)]⟩ ⟨false, []⟩ (Region.ReVar 0) =
      (Region.ReEarlyBound 3, ⟨false, []⟩)) ∧
    (fold_region ⟨[], []⟩ ⟨false, []⟩ (Region.ReVar 1) =
      (Region.ReStatic, ⟨false, []⟩)) :=
  ⟨(C5_fold_region_silent ⟨[], [(0, Region.ReEarlyBound 3)]⟩ ⟨false, []⟩
      (Region.ReVar 0)).1 (Region.ReEarlyBound 3) (by rfl),
   (C5_fold_region_silent ⟨[], []⟩ ⟨false, []⟩ (Region.ReVar 1)).2 () (by rfl)⟩

/-- C7. `WritebackCx::resolve`: the folded value is lifted to the global
context; a lift failure is a fatal internal error with no recovery, a
success returns the lifted value; and the lift check fails exactly on
values still carrying function-local inference data. -/
theorem C7_resolve_lift_fatal (icx : InferCtxt) (st : St) (t : Ty) :
    (∀ l, liftTy (fold_ty icx st t).1 = some l →
      resolveTy icx st t = .ok (l, (fold_ty icx st t).2)) ∧
    (liftTy (fold_ty icx st t).1 = none →
      resolveTy icx st t = .error RunErr.liftBug) ∧
    (∀ u, liftTy u = none ↔ needsInfer u = true) := by
  have h1 : liftTy (fold_ty icx st t).1 = some (fold_ty icx st t).1 := by
    unfold liftTy
    simp [fold_ty_noInfer]
  refine ⟨?_, ?_, ?_⟩
  · intro l hl
    rw [h1] at hl
    cases hl
    rw [resolveTy_eq]
  · intro hl
    rw [h1] at hl
    exact Option.noConfusion hl
  · intro u
    unfold liftTy
    constructor
    · intro h
      by_contra hn
      simp only [Bool.not_eq_true] at hn
      simp [hn] at h
    · intro h
      simp [h]

theorem C7_witness :
    (resolveTy ⟨[], []⟩ ⟨false, []⟩ Ty.bool =
      .ok (Ty.bool, (fold_ty ⟨[], []⟩ ⟨false, []⟩ Ty.bool).2)) ∧
    (liftTy (Ty.infer 0) = none ↔ needsInfer (Ty.infer 0) = true) :=
  ⟨(C7_resolve_lift_fatal ⟨[], []⟩ ⟨false, []⟩ Ty.bool).1 Ty.bool (by decide),
   (C7_resolve_lift_fatal ⟨[], []⟩ ⟨false, []⟩ Ty.bool).2.2 (Ty.infer 0)⟩

/-! ## Claim C4: the opaque-type region gate -/

theorem anon_region_diag_count {st : St} {inside : Ty} {r r' : Region} {st' : St}
    (h : anon_region st inside r = .ok (r', st')) :
    st'.diags.length = st.diags.length + (if offendingRegion r then 1 else 0) := by
  cases r <;>
    simp only [anon_region] at h <;>
    first
      | exact Except.noConfusion h
      | (simp only [Except.ok.injEq, Prod.mk.injEq] at h
         obtain ⟨h1, h2⟩ := h
         subst h2
         simp [offendingRegion])

theorem anon_fold_ty_diag_count (inside : Ty) :
    ∀ (t : Ty) (st : St) (t' : Ty) (st' : St),
      anon_fold_ty inside st t = .ok (t', st') →
      st'.diags.length = st.diags.length + countOffending t := by
  intro t
  induction t with
  | ref r u ih =>
      intro st t' st' h
      unfold anon_fold_ty at h
      rcases hA : anon_region st inside r with e | ⟨r1, st1⟩
      · simp only [hA] at h
        exact Except.noConfusion h
      · simp only [hA] at h
        rcases hB : anon_fold_ty inside st1 u with e | ⟨t1, st2⟩
        · simp only [hB] at h
          exact Except.noConfusion h
        · simp only [hB, Except.ok.injEq, Prod.mk.injEq] at h
          obtain ⟨h1, h2⟩ := h
          subst h2
          have d1 := anon_region_diag_count hA
          have d2 := ih st1 t1 st2 hB
          simp only [countOffending]
          omega
  | pair a b iha ihb =>
      intro st t' st' h
      unfold anon_fold_ty at h
      rcases hA : anon_fold_ty inside st a with e | ⟨a1, st1⟩
      · simp only [hA] at h
        exact Except.noConfusion h
      · simp only [hA] at h
        rcases hB : anon_fold_ty inside st1 b with e | ⟨b1, st2⟩
        · simp only [hB] at h
          exact Except.noConfusion h
        · simp only [hB, Except.ok.injEq, Prod.mk.injEq] at h
          obtain ⟨h1, h2⟩ := h
          subst h2
          have d1 := iha st a1 st1 hA
          have d2 := ihb st1 b1 st2 hB
          simp only [countOffending]
          omega
  | bool => intro st t' st' h; cases h; simp [countOffending]
  | char => intro st t' st' h; cases h; simp [countOffending]
  | int w => intro st t' st' h; cases h; simp [countOffending]
  | uint w => intro st t' st' h; cases h; simp [countOffending]
  | float w => intro st t' st' h; cases h; simp [countOffending]
  | adt n => intro st t' st' h; cases h; simp [countOffending]
  | infer v => intro st t' st' h; cases h; simp [countOffending]
  | err => intro st t' st' h; cases h; simp [countOffending]

/-- C4. The opaque-type region gate: static, early-bound and empty
regions are kept unchanged; free, late-bound, scope-local and skolemized
regions are diagnosed (exactly one diagnostic per occurrence of the
whole witness fold) and replaced by the static region; an inference
variable or an erased region is a fatal internal error. -/
theorem C4_anon_region_gate :
    (∀ st t, anon_region st t Region.ReStatic = .ok (Region.ReStatic, st)) ∧
    (∀ st t i, anon_region st t (Region.ReEarlyBound i) =
      .ok (Region.ReEarlyBound i, st)) ∧
    (∀ st t, anon_region st t Region.ReEmpty = .ok (Region.ReEmpty, st)) ∧
    (∀ st t i, anon_region st t (Region.ReFree i) =
      .ok (Region.ReStatic,
        { hasErrors := true,
          diags := st.diags ++ [Diag.regionInImplTrait (Region.ReFree i) t] })) ∧
    (∀ st t d i, anon_region st t (Region.ReLateBound d i) =
      .ok (Region.ReStatic,
        { hasErrors := true,
          diags := st.diags ++ [Diag.regionInImplTrait (Region.ReLateBound d i) t] })) ∧
    (∀ st t i, anon_region st t (Region.ReScope i) =
      .ok (Region.ReStatic,
        { hasErrors := true,
          diags := st.diags ++ [Diag.regionInImplTrait (Region.ReScope i) t] })) ∧
    (∀ st t u i, anon_region st t (Region.ReSkolemized u i) =
      .ok (Region.ReStatic,
        { hasErrors := true,
          diags := st.diags ++ [Diag.regionInImplTrait (Region.ReSkolemized u i) t] })) ∧
    (∀ st t v, anon_region st t (Region.ReVar v) = .error RunErr.invalidRegionBug) ∧
    (∀ st t, anon_region st t Region.ReErased = .error RunErr.invalidRegionBug) ∧
    (∀ inside st t t' st', anon_fold_ty inside st t = .ok (t', st') →
      st'.diags.length = st.diags.length + countOffending t) :=
  ⟨fun _ _ => rfl, fun _ _ _ => rfl, fun _ _ => rfl, fun _ _ _ => rfl,
   fun _ _ _ _ => rfl, fun _ _ _ => rfl, fun _ _ _ _ => rfl, fun _ _ _ => rfl,
   fun _ _ => rfl,
   fun inside _ t _ _ h => anon_fold_ty_diag_count inside t _ _ _ h⟩

/-! ## Frame and step lemmas for the traversal -/

def SideUnchanged.refl (t : TypeckTables) : SideUnchanged t t :=
  ⟨rfl, rfl, rfl, rfl, rfl, rfl, rfl, rfl, rfl, rfl, rfl, rfl⟩

def SideUnchanged.comp {a b c : TypeckTables}
    (h1 : SideUnchanged a b) (h2 : SideUnchanged b c) : SideUnchanged a c :=
  ⟨h2.root.trans h1.root, h2.uv.trans h1.uv, h2.ct.trans h1.ct, h2.ck.trans h1.ck,
   h2.cast.trans h1.cast, h2.lib.trans h1.lib, h2.fru.trans h1.fru, h2.gs.trans h1.gs,
   h2.gi.trans h1.gi, h2.used.trans h1.used, h2.frm.trans h1.frm, h2.taint.trans h1.taint⟩

theorem prefix_step_refl {α : Type} {A : List α} (k : List α) :
    ∃ l, l.Sublist A ∧ k = l ++ k :=
  ⟨[], List.nil_sublist A, rfl⟩

theorem prefix_step_trans {α : Type} {A B : List α} {k1 k2 k3 : List α}
    (h1 : ∃ l, l.Sublist A ∧ k2 = l ++ k1)
    (h2 : ∃ l, l.Sublist B ∧ k3 = l ++ k2) :
    ∃ l, l.Sublist (B ++ A) ∧ k3 = l ++ k1 := by
  obtain ⟨a, ha, ea⟩ := h1
  obtain ⟨b, hb, eb⟩ := h2
  exact ⟨b ++ a, List.Sublist.append hb ha, by rw [eb, ea, List.append_assoc]⟩

theorem prefix_step_mono {α : Type} {A B : List α} {k1 k2 : List α}
    (hAB : A.Sublist B) (h : ∃ l, l.Sublist A ∧ k2 = l ++ k1) :
    ∃ l, l.Sublist B ∧ k2 = l ++ k1 := by
  obtain ⟨a, ha, ea⟩ := h
  exact ⟨a, ha.trans hAB, ea⟩

def StepKeys.refl (L : List HirId) (t : TypeckTables) : StepKeys L t t :=
  ⟨prefix_step_refl _, prefix_step_refl _, prefix_step_refl _, prefix_step_refl _,
   prefix_step_refl _, prefix_step_refl _, SideUnchanged.refl t⟩

theorem StepKeys.trans {L1 L2 : List HirId} {t1 t2 t3 : TypeckTables}
    (h1 : StepKeys L1 t1 t2) (h2 : StepKeys L2 t2 t3) :
    StepKeys (L1 ++ L2) t1 t3 := by
  have e : L2.reverse ++ L1.reverse = (L1 ++ L2).reverse := (List.reverse_append _ _).symm
  exact ⟨e ▸ prefix_step_trans h1.nt h2.nt, e ▸ prefix_step_trans h1.ns h2.ns,
         e ▸ prefix_step_trans h1.tdd h2.tdd, e ▸ prefix_step_trans h1.adj h2.adj,
         e ▸ prefix_step_trans h1.pbm h2.pbm, e ▸ prefix_step_trans h1.padj h2.padj,
         h1.side.comp h2.side⟩

theorem StepKeys.mono {L L' : List HirId} {t t' : TypeckTables}
    (hs : L.Sublist L') (h : StepKeys L t t') : StepKeys L' t t' :=
  ⟨prefix_step_mono hs.reverse h.nt, prefix_step_mono hs.reverse h.ns,
   prefix_step_mono hs.reverse h.tdd, prefix_step_mono hs.reverse h.adj,
   prefix_step_mono hs.reverse h.pbm, prefix_step_mono hs.reverse h.padj, h.side⟩

theorem StepKeys.nt_mem {L : List HirId} {t t' : TypeckTables}
    (h : StepKeys L t t') {i : HirId} (hi : i ∈ keysA t.node_types) :
    i ∈ keysA t'.node_types := by
  obtain ⟨l, _, e⟩ := h.nt
  rw [e]
  exact List.mem_append_right l hi

theorem mem_step_refl {α : Type} {P : α → Prop} (l : List α) :
    ∀ p ∈ l, p ∈ l ∨ P p := fun p hp => Or.inl hp

theorem mem_step_trans {α : Type} {P : α → Prop} {l1 l2 l3 : List α}
    (h12 : ∀ p ∈ l2, p ∈ l1 ∨ P p) (h23 : ∀ p ∈ l3, p ∈ l2 ∨ P p) :
    ∀ p ∈ l3, p ∈ l1 ∨ P p := by
  intro p hp
  rcases h23 p hp with h | h
  · exact h12 p h
  · exact Or.inr h

theorem mem_step_cons {α : Type} {P : α → Prop} {l : List α} {x : α} (hx : P x) :
    ∀ p ∈ x :: l, p ∈ l ∨ P p := by
  intro p hp
  rcases List.mem_cons.mp hp with h | h
  · exact Or.inr (h ▸ hx)
  · exact Or.inl h

theorem mem_step_of_eq {α : Type} {P : α → Prop} {l l' : List α} (h : l' = l) :
    ∀ p ∈ l', p ∈ l ∨ P p := fun p hp => Or.inl (h ▸ hp)

def ValuesStep.refl (t : TypeckTables) : ValuesStep t t :=
  ⟨mem_step_refl _, mem_step_refl _, mem_step_refl _, mem_step_refl _, mem_step_refl _,
   mem_step_refl _, mem_step_refl _, mem_step_refl _, mem_step_refl _, mem_step_refl _,
   mem_step_refl _⟩

def ValuesStep.comp {a b c : TypeckTables}
    (h1 : ValuesStep a b) (h2 : ValuesStep b c) : ValuesStep a c :=
  ⟨mem_step_trans h1.nt h2.nt, mem_step_trans h1.ns h2.ns, mem_step_trans h1.adj h2.adj,
   mem_step_trans h1.padj h2.padj, mem_step_trans h1.uv h2.uv, mem_step_trans h1.ct h2.ct,
   mem_step_trans h1.lib h2.lib, mem_step_trans h1.fru h2.fru, mem_step_trans h1.gs h2.gs,
   mem_step_trans h1.gi h2.gi, mem_step_trans h1.frm h2.frm⟩

theorem mem_pred_step {α : Type} {P : α → Prop} {l l' : List α}
    (ho : ∀ p ∈ l, P p) (hv : ∀ p ∈ l', p ∈ l ∨ P p) : ∀ p ∈ l', P p := by
  intro p hp
  rcases hv p hp with h | h
  · exact ho p h
  · exact h

theorem TablesOk.step {t t' : TypeckTables} (ho : TablesOk t) (hv : ValuesStep t t') :
    TablesOk t' :=
  ⟨mem_pred_step ho.nt hv.nt, mem_pred_step ho.ns hv.ns, mem_pred_step ho.adj hv.adj,
   mem_pred_step ho.padj hv.padj, mem_pred_step ho.uv hv.uv, mem_pred_step ho.ct hv.ct,
   mem_pred_step ho.lib hv.lib, mem_pred_step ho.fru hv.fru, mem_pred_step ho.gs hv.gs,
   mem_pred_step ho.gi hv.gi, mem_pred_step ho.frm hv.frm⟩

/-! ## Step specifications for the traversal -/

theorem fix_scalar_spec {icx : InferCtxt} {e : Expr} {s s' : WState}
    (h : fix_scalar_builtin_expr icx e s = .ok s') :
    s'.tables = s.tables ∧ s'.st = s.st ∧
    SideUnchanged s.fcx_tables s'.fcx_tables := by
  cases e with
  | lit i =>
      simp only [fix_scalar_builtin_expr, Except.ok.injEq] at h
      subst h
      exact ⟨rfl, rfl, SideUnchanged.refl _⟩
  | closure i args body =>
      simp only [fix_scalar_builtin_expr, Except.ok.injEq] at h
      subst h
      exact ⟨rfl, rfl, SideUnchanged.refl _⟩
  | unary i uop inner =>
      cases uop with
      | deref =>
          simp only [fix_scalar_builtin_expr, Except.ok.injEq] at h
          subst h
          exact ⟨rfl, rfl, SideUnchanged.refl _⟩
      | neg =>
          simp only [fix_scalar_builtin_expr] at h
          rcases hnt : node_ty s.fcx_tables s.st.hasErrors inner.id with e | ity
          · simp only [hnt] at h
            exact Except.noConfusion h
          · simp only [hnt] at h
            by_cases hs : is_scalar (resolveVarsTy icx ity) = true
            · simp [hs] at h
              subst h
              exact ⟨rfl, rfl,
                ⟨rfl, rfl, rfl, rfl, rfl, rfl, rfl, rfl, rfl, rfl, rfl, rfl⟩⟩
            · simp only [Bool.not_eq_true] at hs
              simp [hs] at h
              subst h
              exact ⟨rfl, rfl, SideUnchanged.refl _⟩
      | not =>
          simp only [fix_scalar_builtin_expr] at h
          rcases hnt : node_ty s.fcx_tables s.st.hasErrors inner.id with e | ity
          · simp only [hnt] at h
            exact Except.noConfusion h
          · simp only [hnt] at h
            by_cases hs : is_scalar (resolveVarsTy icx ity) = true
            · simp [hs] at h
              subst h
              exact ⟨rfl, rfl,
                ⟨rfl, rfl, rfl, rfl, rfl, rfl, rfl, rfl, rfl, rfl, rfl, rfl⟩⟩
            · simp only [Bool.not_eq_true] at hs
              simp [hs] at h
              subst h
              exact ⟨rfl, rfl, SideUnchanged.refl _⟩
  | binary i op lhs rhs =>
      simp only [fix_scalar_builtin_expr] at h
      rcases hl : node_ty s.fcx_tables s.st.hasErrors lhs.id with e | lt
      · simp only [hl] at h
        exact Except.noConfusion h
      · simp only [hl] at h
        rcases hr : node_ty s.fcx_tables s.st.hasErrors rhs.id with e | rt
        · simp only [hr] at h
          exact Except.noConfusion h
        · simp only [hr] at h
          by_cases hs : (is_scalar (resolveVarsTy icx lt) &&
              is_scalar (resolveVarsTy icx rt)) = true
          · simp only [hs, if_true, Except.ok.injEq] at h
            by_cases hbv : op.is_by_value = true
            · simp only [hbv, Bool.not_true, Bool.false_eq_true, if_false] at h
              subst h
              exact ⟨rfl, rfl,
                ⟨rfl, rfl, rfl, rfl, rfl, rfl, rfl, rfl, rfl, rfl, rfl, rfl⟩⟩
            · simp only [Bool.not_eq_true] at hbv
              simp only [hbv, Bool.not_false, if_true] at h
              subst h
              exact ⟨rfl, rfl,
                ⟨rfl, rfl, rfl, rfl, rfl, rfl, rfl, rfl, rfl, rfl, rfl, rfl⟩⟩
          · simp only [Bool.not_eq_true] at hs
            simp [hs] at h
            subst h
            exact ⟨rfl, rfl, SideUnchanged.refl _⟩
  | assignOp i op lhs rhs =>
      simp only [fix_scalar_builtin_expr] at h
      rcases hl : node_ty s.fcx_tables s.st.hasErrors lhs.id with e | lt
      · simp only [hl] at h
        exact Except.noConfusion h
      · simp only [hl] at h
        rcases hr : node_ty s.fcx_tables s.st.hasErrors rhs.id with e | rt
        · simp only [hr] at h
          exact Except.noConfusion h
        · simp only [hr] at h
          by_cases hs : (is_scalar (resolveVarsTy icx lt) &&
              is_scalar (resolveVarsTy icx rt)) = true
          · simp only [hs, if_true, Except.ok.injEq] at h
            subst h
            exact ⟨rfl, rfl,
              ⟨rfl, rfl, rfl, rfl, rfl, rfl, rfl, rfl, rfl, rfl, rfl, rfl⟩⟩
          · simp only [Bool.not_eq_true] at hs
            simp [hs] at h
            subst h
            exact ⟨rfl, rfl, SideUnchanged.refl _⟩

theorem move_tdd_spec (i : HirId) (s : WState) :
    (move_type_dependent_def i s).tables.node_types = s.tables.node_types ∧
    (move_type_dependent_def i s).tables.node_substs = s.tables.node_substs ∧
    (move_type_dependent_def i s).tables.pat_binding_modes = s.tables.pat_binding_modes ∧
    (move_type_dependent_def i s).tables.pat_adjustments = s.tables.pat_adjustments ∧
    (move_type_dependent_def i s).tables.adjustments = s.tables.adjustments ∧
    (∃ l, l.Sublist [i] ∧
      keysA (move_type_dependent_def i s).tables.type_dependent_defs =
        l ++ keysA s.tables.type_dependent_defs) ∧
    SideUnchanged s.tables (move_type_dependent_def i s).tables ∧
    SideUnchanged s.fcx_tables (move_type_dependent_def i s).fcx_tables ∧
    (move_type_dependent_def i s).st = s.st ∧
    ValuesStep s.tables (move_type_dependent_def i s).tables := by
  unfold move_type_dependent_def
  rcases hd : lookupA s.fcx_tables.type_dependent_defs i with _ | d
  · exact ⟨rfl, rfl, rfl, rfl, rfl, ⟨[], List.nil_sublist _, rfl⟩,
      SideUnchanged.refl _, SideUnchanged.refl _, rfl, ValuesStep.refl _⟩
  · refine ⟨rfl, rfl, rfl, rfl, rfl, ⟨[i], List.Sublist.refl _, rfl⟩,
      ⟨rfl, rfl, rfl, rfl, rfl, rfl, rfl, rfl, rfl, rfl, rfl, rfl⟩,
      ⟨rfl, rfl, rfl, rfl, rfl, rfl, rfl, rfl, rfl, rfl, rfl, rfl⟩, rfl,
      ⟨mem_step_refl _, mem_step_refl _, mem_step_refl _, mem_step_refl _,
       mem_step_refl _, mem_step_refl _, mem_step_refl _, mem_step_refl _,
       mem_step_refl _, mem_step_refl _, mem_step_refl _⟩⟩

theorem visit_adjustments_spec {icx : InferCtxt} {i : HirId} {s s' : WState}
    (h : visit_adjustments icx i s = .ok s') :
    s'.tables.node_types = s.tables.node_types ∧
    s'.tables.node_substs = s.tables.node_substs ∧
    s'.tables.type_dependent_defs = s.tables.type_dependent_defs ∧
    s'.tables.pat_binding_modes = s.tables.pat_binding_modes ∧
    s'.tables.pat_adjustments = s.tables.pat_adjustments ∧
    (∃ l, l.Sublist [i] ∧
      keysA s'.tables.adjustments = l ++ keysA s.tables.adjustments) ∧
    SideUnchanged s.tables s'.tables ∧
    SideUnchanged s.fcx_tables s'.fcx_tables ∧
    ValuesStep s.tables s'.tables := by
  unfold visit_adjustments at h
  rcases ha : lookupA s.fcx_tables.adjustments i with _ | adjl
  · simp only [ha, Except.ok.injEq] at h
    subst h
    exact ⟨rfl, rfl, rfl, rfl, rfl, ⟨[], List.nil_sublist _, rfl⟩,
      SideUnchanged.refl _,
      ⟨rfl, rfl, rfl, rfl, rfl, rfl, rfl, rfl, rfl, rfl, rfl, rfl⟩,
      ValuesStep.refl _⟩
  · simp only [ha] at h
    rcases hf : fold_adj_list icx s.st adjl with ⟨adjl', st'⟩
    have hok : adjListNeedsInfer adjl' = false := by
      have hh := fold_adj_list_noInfer icx s.st adjl
      rw [hf] at hh
      exact hh
    simp only [resolveAdjList_eq, hf, Except.ok.injEq] at h
    subst h
    exact ⟨rfl, rfl, rfl, rfl, rfl, ⟨[i], List.Sublist.refl _, rfl⟩,
      ⟨rfl, rfl, rfl, rfl, rfl, rfl, rfl, rfl, rfl, rfl, rfl, rfl⟩,
      ⟨rfl, rfl, rfl, rfl, rfl, rfl, rfl, rfl, rfl, rfl, rfl, rfl⟩,
      ⟨mem_step_refl _, mem_step_refl _, mem_step_cons hok, mem_step_refl _,
       mem_step_refl _, mem_step_refl _, mem_step_refl _, mem_step_refl _,
       mem_step_refl _, mem_step_refl _, mem_step_refl _⟩⟩

theorem visit_pat_adjustments_spec {icx : InferCtxt} {i : HirId} {s s' : WState}
    (h : visit_pat_adjustments icx i s = .ok s') :
    s'.tables.node_types = s.tables.node_types ∧
    s'.tables.node_substs = s.tables.node_substs ∧
    s'.tables.type_dependent_defs = s.tables.type_dependent_defs ∧
    s'.tables.pat_binding_modes = s.tables.pat_binding_modes ∧
    s'.tables.adjustments = s.tables.adjustments ∧
    (∃ l, l.Sublist [i] ∧
      keysA s'.tables.pat_adjustments = l ++ keysA s.tables.pat_adjustments) ∧
    SideUnchanged s.tables s'.tables ∧
    SideUnchanged s.fcx_tables s'.fcx_tables ∧
    ValuesStep s.tables s'.tables := by
  unfold visit_pat_adjustments at h
  rcases ha : lookupA s.fcx_tables.pat_adjustments i with _ | adjl
  · simp only [ha, Except.ok.injEq] at h
    subst h
    exact ⟨rfl, rfl, rfl, rfl, rfl, ⟨[], List.nil_sublist _, rfl⟩,
      SideUnchanged.refl _,
      ⟨rfl, rfl, rfl, rfl, rfl, rfl, rfl, rfl, rfl, rfl, rfl, rfl⟩,
      ValuesStep.refl _⟩
  · simp only [ha] at h
    rcases hf : fold_adj_list icx s.st adjl with ⟨adjl', st'⟩
    have hok : adjListNeedsInfer adjl' = false := by
      have hh := fold_adj_list_noInfer icx s.st adjl
      rw [hf] at hh
      exact hh
    simp only [resolveAdjList_eq, hf, Except.ok.injEq] at h
    subst h
    exact ⟨rfl, rfl, rfl, rfl, rfl, ⟨[i], List.Sublist.refl _, rfl⟩,
      ⟨rfl, rfl, rfl, rfl, rfl, rfl, rfl, rfl, rfl, rfl, rfl, rfl⟩,
      ⟨rfl, rfl, rfl, rfl, rfl, rfl, rfl, rfl, rfl, rfl, rfl, rfl⟩,
      ⟨mem_step_refl _, mem_step_refl _, mem_step_refl _, mem_step_cons hok,
       mem_step_refl _, mem_step_refl _, mem_step_refl _, mem_step_refl _,
       mem_step_refl _, mem_step_refl _, mem_step_refl _⟩⟩

theorem visit_node_id_spec {icx : InferCtxt} {i : HirId} {s s' : WState}
    (h : visit_node_id icx i s = .ok s') :
    StepKeys [i] s.tables s'.tables ∧
    i ∈ keysA s'.tables.node_types ∧
    ValuesStep s.tables s'.tables ∧
    SideUnchanged s.fcx_tables s'.fcx_tables ∧
    s'.tables.pat_binding_modes = s.tables.pat_binding_modes ∧
    s'.tables.pat_adjustments = s.tables.pat_adjustments := by
  obtain ⟨M1, M2, M3, M4, M5, ⟨lm, hlm, Mtdd⟩, Mside, Mfside, Mst, MV⟩ :=
    move_tdd_spec i s
  simp only [visit_node_id] at h
  rcases ha : visit_adjustments icx i (move_type_dependent_def i s) with e | s2
  · simp only [ha] at h
    exact Except.noConfusion h
  · simp only [ha] at h
    obtain ⟨A1, A2, A3, A4, A5, ⟨la, hla, Aadj⟩, Aside, Afside, AV⟩ :=
      visit_adjustments_spec ha
    rcases hnt : node_ty s2.fcx_tables s2.st.hasErrors i with e | nty
    · simp only [hnt] at h
      exact Except.noConfusion h
    · simp only [hnt] at h
      rcases hf : fold_ty icx s2.st nty with ⟨nty', st'⟩
      have hni : needsInfer nty' = false := by
        have hh := fold_ty_noInfer icx s2.st nty
        rw [hf] at hh
        exact hh
      have hw : write_ty_to_tables s2.tables i nty' =
          .ok { s2.tables with node_types := insertA s2.tables.node_types i nty' } := by
        unfold write_ty_to_tables
        simp [hni]
      simp only [resolveTy_eq, hf, hw] at h
      rcases hsub : lookupA s2.fcx_tables.node_substs i with _ | subs
      · simp only [hsub, Except.ok.injEq] at h
        subst h
        refine ⟨?_, ?_, ?_, ?_, ?_, ?_⟩
        · refine ⟨⟨[i], List.Sublist.refl _, ?_⟩, ⟨[], List.nil_sublist _, ?_⟩,
                  ⟨lm, hlm, ?_⟩, ⟨la, hla, ?_⟩, ⟨[], List.nil_sublist _, ?_⟩,
                  ⟨[], List.nil_sublist _, ?_⟩, ?_⟩
          · show keysA (insertA s2.tables.node_types i nty') =
              [i] ++ keysA s.tables.node_types
            rw [keysA_insertA, A1, M1]
            rfl
          · show keysA s2.tables.node_substs = [] ++ keysA s.tables.node_substs
            rw [A2, M2]
            rfl
          · show keysA s2.tables.type_dependent_defs =
              lm ++ keysA s.tables.type_dependent_defs
            rw [A3]
            exact Mtdd
          · show keysA s2.tables.adjustments = la ++ keysA s.tables.adjustments
            rw [Aadj, M5]
          · show keysA s2.tables.pat_binding_modes =
              [] ++ keysA s.tables.pat_binding_modes
            rw [A4, M3]
            rfl
          · show keysA s2.tables.pat_adjustments =
              [] ++ keysA s.tables.pat_adjustments
            rw [A5, M4]
            rfl
          · exact Mside.comp (Aside.comp
              ⟨rfl, rfl, rfl, rfl, rfl, rfl, rfl, rfl, rfl, rfl, rfl, rfl⟩)
        · show i ∈ keysA (insertA s2.tables.node_types i nty')
          rw [keysA_insertA]
          exact List.mem_cons_self _ _
        · refine (MV.comp AV).comp ?_
          exact ⟨mem_step_cons hni, mem_step_refl _, mem_step_refl _, mem_step_refl _,
                 mem_step_refl _, mem_step_refl _, mem_step_refl _, mem_step_refl _,
                 mem_step_refl _, mem_step_refl _, mem_step_refl _⟩
        · exact Mfside.comp Afside
        · show s2.tables.pat_binding_modes = s.tables.pat_binding_modes
          rw [A4, M3]
        · show s2.tables.pat_adjustments = s.tables.pat_adjustments
          rw [A5, M4]
      · simp only [hsub] at h
        rcases hfl : fold_ty_list icx st' subs with ⟨subs', stb⟩
        have hnl : tyListNeedsInfer subs' = false := by
          have hh := fold_ty_list_noInfer icx st' subs
          rw [hfl] at hh
          exact hh
        simp only [resolveTyList_eq, hfl, hnl, Bool.false_eq_true, if_false,
          Except.ok.injEq] at h
        subst h
        refine ⟨?_, ?_, ?_, ?_, ?_, ?_⟩
        · refine ⟨⟨[i], List.Sublist.refl _, ?_⟩, ⟨[i], List.Sublist.refl _, ?_⟩,
                  ⟨lm, hlm, ?_⟩, ⟨la, hla, ?_⟩, ⟨[], List.nil_sublist _, ?_⟩,
                  ⟨[], List.nil_sublist _, ?_⟩, ?_⟩
          · show keysA (insertA s2.tables.node_types i nty') =
              [i] ++ keysA s.tables.node_types
            rw [keysA_insertA, A1, M1]
            rfl
          · show keysA (insertA s2.tables.node_substs i subs') =
              [i] ++ keysA s.tables.node_substs
            rw [keysA_insertA, A2, M2]
            rfl
          · show keysA s2.tables.type_dependent_defs =
              lm ++ keysA s.tables.type_dependent_defs
            rw [A3]
            exact Mtdd
          · show keysA s2.tables.adjustments = la ++ keysA s.tables.adjustments
            rw [Aadj, M5]
          · show keysA s2.tables.pat_binding_modes =
              [] ++ keysA s.tables.pat_binding_modes
            rw [A4, M3]
            rfl
          · show keysA s2.tables.pat_adjustments =
              [] ++ keysA s.tables.pat_adjustments
            rw [A5, M4]
            rfl
          · exact Mside.comp (Aside.comp
              ⟨rfl, rfl, rfl, rfl, rfl, rfl, rfl, rfl, rfl, rfl, rfl, rfl⟩)
        · show i ∈ keysA (insertA s2.tables.node_types i nty')
          rw [keysA_insertA]
          exact List.mem_cons_self _ _
        · refine (MV.comp AV).comp ?_
          exact ⟨mem_step_cons hni, mem_step_cons hnl, mem_step_refl _, mem_step_refl _,
                 mem_step_refl _, mem_step_refl _, mem_step_refl _, mem_step_refl _,
                 mem_step_refl _, mem_step_refl _, mem_step_refl _⟩
        · exact Mfside.comp Afside
        · show s2.tables.pat_binding_modes = s.tables.pat_binding_modes
          rw [A4, M3]
        · show s2.tables.pat_adjustments = s.tables.pat_adjustments
          rw [A5, M4]

theorem prefix_step_cons {α : Type} {i : α} {Q : List α} {k0 k1 k2 : List α}
    (h0 : ∃ l, l.Sublist [i] ∧ k1 = l ++ k0)
    (hq : ∃ l, l.Sublist Q.reverse ∧ k2 = l ++ k1) :
    ∃ l, l.Sublist (i :: Q).reverse ∧ k2 = l ++ k0 := by
  have hh := prefix_step_trans h0 hq
  rwa [← List.reverse_cons] at hh

theorem visit_pat_node_spec {icx : InferCtxt} {p : Pat} {s s' : WState}
    (h : visit_pat_node icx p s = .ok s') :
    StepKeys [p.id] s.tables s'.tables ∧
    p.id ∈ keysA s'.tables.node_types ∧
    ValuesStep s.tables s'.tables ∧
    SideUnchanged s.fcx_tables s'.fcx_tables := by
  cases p with
  | binding i =>
      simp only [visit_pat_node, Pat.id] at h
      rcases hbm : lookupA s.fcx_tables.pat_binding_modes i with _ | bm
      · simp only [hbm] at h
        exact Except.noConfusion h
      · simp only [hbm] at h
        rcases hpa : visit_pat_adjustments icx i
            { s with tables :=
              { s.tables with
                pat_binding_modes := insertA s.tables.pat_binding_modes i bm } }
            with e | s2
        · simp only [hpa] at h
          exact Except.noConfusion h
        · simp only [hpa] at h
          obtain ⟨P1, P2, P3, P4, P5, ⟨lp, hlp, Ppadj⟩, Pside, Pfside, PV⟩ :=
            visit_pat_adjustments_spec hpa
          obtain ⟨NK, Nmem, NV, Nf, Npbm, Npadj⟩ := visit_node_id_spec h
          refine ⟨?_, Nmem, ?_, ?_⟩
          · refine ⟨?_, ?_, ?_, ?_, ?_, ?_, ?_⟩
            · obtain ⟨l, hl, e⟩ := NK.nt
              refine ⟨l, hl, ?_⟩
              rw [e, P1]
            · obtain ⟨l, hl, e⟩ := NK.ns
              refine ⟨l, hl, ?_⟩
              rw [e, P2]
            · obtain ⟨l, hl, e⟩ := NK.tdd
              refine ⟨l, hl, ?_⟩
              rw [e, P3]
            · obtain ⟨l, hl, e⟩ := NK.adj
              refine ⟨l, hl, ?_⟩
              rw [e, P5]
            · refine ⟨[i], List.Sublist.refl _, ?_⟩
              rw [show keysA s'.tables.pat_binding_modes =
                    keysA s2.tables.pat_binding_modes from by rw [Npbm], P4]
              rfl
            · refine ⟨lp, hlp, ?_⟩
              rw [show keysA s'.tables.pat_adjustments =
                    keysA s2.tables.pat_adjustments from by rw [Npadj], Ppadj]
            · refine SideUnchanged.comp ?_ (Pside.comp NK.side)
              exact ⟨rfl, rfl, rfl, rfl, rfl, rfl, rfl, rfl, rfl, rfl, rfl, rfl⟩
          · refine ValuesStep.comp ?_ (PV.comp NV)
            exact ⟨mem_step_refl _, mem_step_refl _, mem_step_refl _, mem_step_refl _,
               mem_step_refl _, mem_step_refl _, mem_step_refl _, mem_step_refl _,
               mem_step_refl _, mem_step_refl _, mem_step_refl _⟩
          · exact Pfside.comp Nf
  | wild i =>
      simp only [visit_pat_node, Pat.id] at h
      rcases hpa : visit_pat_adjustments icx i s with e | s2
      · simp only [hpa] at h
        exact Except.noConfusion h
      · simp only [hpa] at h
        obtain ⟨P1, P2, P3, P4, P5, ⟨lp, hlp, Ppadj⟩, Pside, Pfside, PV⟩ :=
          visit_pat_adjustments_spec hpa
        obtain ⟨NK, Nmem, NV, Nf, Npbm, Npadj⟩ := visit_node_id_spec h
        refine ⟨?_, Nmem, PV.comp NV, Pfside.comp Nf⟩
        refine ⟨?_, ?_, ?_, ?_, ?_, ?_, Pside.comp NK.side⟩
        · obtain ⟨l, hl, e⟩ := NK.nt
          exact ⟨l, hl, by rw [e, P1]⟩
        · obtain ⟨l, hl, e⟩ := NK.ns
          exact ⟨l, hl, by rw [e, P2]⟩
        · obtain ⟨l, hl, e⟩ := NK.tdd
          exact ⟨l, hl, by rw [e, P3]⟩
        · obtain ⟨l, hl, e⟩ := NK.adj
          exact ⟨l, hl, by rw [e, P5]⟩
        · refine ⟨[], List.nil_sublist _, ?_⟩
          rw [show keysA s'.tables.pat_binding_modes =
                keysA s2.tables.pat_binding_modes from by rw [Npbm], P4]
          rfl
        · refine ⟨lp, hlp, ?_⟩
          rw [show keysA s'.tables.pat_adjustments =
                keysA s2.tables.pat_adjustments from by rw [Npadj], Ppadj]
  | sub i q =>
      simp only [visit_pat_node, Pat.id] at h
      rcases hpa : visit_pat_adjustments icx i s with e | s2
      · simp only [hpa] at h
        exact Except.noConfusion h
      · simp only [hpa] at h
        obtain ⟨P1, P2, P3, P4, P5, ⟨lp, hlp, Ppadj⟩, Pside, Pfside, PV⟩ :=
          visit_pat_adjustments_spec hpa
        obtain ⟨NK, Nmem, NV, Nf, Npbm, Npadj⟩ := visit_node_id_spec h
        refine ⟨?_, Nmem, PV.comp NV, Pfside.comp Nf⟩
        refine ⟨?_, ?_, ?_, ?_, ?_, ?_, Pside.comp NK.side⟩
        · obtain ⟨l, hl, e⟩ := NK.nt
          exact ⟨l, hl, by rw [e, P1]⟩
        · obtain ⟨l, hl, e⟩ := NK.ns
          exact ⟨l, hl, by rw [e, P2]⟩
        · obtain ⟨l, hl, e⟩ := NK.tdd
          exact ⟨l, hl, by rw [e, P3]⟩
        · obtain ⟨l, hl, e⟩ := NK.adj
          exact ⟨l, hl, by rw [e, P5]⟩
        · refine ⟨[], List.nil_sublist _, ?_⟩
          rw [show keysA s'.tables.pat_binding_modes =
                keysA s2.tables.pat_binding_modes from by rw [Npbm], P4]
          rfl
        · refine ⟨lp, hlp, ?_⟩
          rw [show keysA s'.tables.pat_adjustments =
                keysA s2.tables.pat_adjustments from by rw [Npadj], Ppadj]

theorem visit_pat_spec {icx : InferCtxt} : ∀ {p : Pat} {s s' : WState},
    visit_pat icx p s = .ok s' →
    StepKeys p.ids s.tables s'.tables ∧
    (∀ j ∈ p.ids, j ∈ keysA s'.tables.node_types) ∧
    ValuesStep s.tables s'.tables ∧
    SideUnchanged s.fcx_tables s'.fcx_tables := by
  intro p
  induction p with
  | binding i =>
      intro s s' h
      simp only [visit_pat] at h
      obtain ⟨NK, Nmem, NV, Nf⟩ := visit_pat_node_spec h
      refine ⟨NK, ?_, NV, Nf⟩
      intro j hj
      rcases List.mem_cons.mp hj with hj | hj
      · exact hj ▸ Nmem
      · simp at hj
  | wild i =>
      intro s s' h
      simp only [visit_pat] at h
      obtain ⟨NK, Nmem, NV, Nf⟩ := visit_pat_node_spec h
      refine ⟨NK, ?_, NV, Nf⟩
      intro j hj
      rcases List.mem_cons.mp hj with hj | hj
      · exact hj ▸ Nmem
      · simp at hj
  | sub i q ih =>
      intro s s' h
      simp only [visit_pat] at h
      rcases hn : visit_pat_node icx (.sub i q) s with e | s3
      · simp only [hn] at h
        exact Except.noConfusion h
      · simp only [hn] at h
        obtain ⟨NK, Nmem, NV, Nf⟩ := visit_pat_node_spec hn
        obtain ⟨QK, Qmem, QV, Qf⟩ := ih h
        refine ⟨?_, ?_, NV.comp QV, Nf.comp Qf⟩
        · exact ⟨prefix_step_cons NK.nt QK.nt, prefix_step_cons NK.ns QK.ns,
                 prefix_step_cons NK.tdd QK.tdd, prefix_step_cons NK.adj QK.adj,
                 prefix_step_cons NK.pbm QK.pbm, prefix_step_cons NK.padj QK.padj,
                 NK.side.comp QK.side⟩
        · intro j hj
          rcases List.mem_cons.mp hj with hj | hj
          · exact hj ▸ QK.nt_mem Nmem
          · exact Qmem j hj

theorem visit_arg_ids_spec {icx : InferCtxt} : ∀ {args : List Arg} {s s' : WState},
    visit_arg_ids icx args s = .ok s' →
    StepKeys (args.map Arg.id) s.tables s'.tables ∧
    (∀ j ∈ args.map Arg.id, j ∈ keysA s'.tables.node_types) ∧
    ValuesStep s.tables s'.tables ∧
    SideUnchanged s.fcx_tables s'.fcx_tables := by
  intro args
  induction args with
  | nil =>
      intro s s' h
      simp only [visit_arg_ids, Except.ok.injEq] at h
      subst h
      exact ⟨StepKeys.refl _ _, by intro j hj; simp at hj, ValuesStep.refl _,
             SideUnchanged.refl _⟩
  | cons a rest ih =>
      intro s s' h
      simp only [visit_arg_ids] at h
      rcases hn : visit_node_id icx a.id s with e | s1
      · simp only [hn] at h
        exact Except.noConfusion h
      · simp only [hn] at h
        obtain ⟨NK, Nmem, NV, Nf, _, _⟩ := visit_node_id_spec hn
        obtain ⟨RK, Rmem, RV, Rf⟩ := ih h
        refine ⟨NK.trans RK, ?_, NV.comp RV, Nf.comp Rf⟩
        intro j hj
        simp only [List.map_cons, List.mem_cons] at hj
        rcases hj with hj | hj
        · exact hj ▸ RK.nt_mem Nmem
        · exact Rmem j (by simpa using hj)

theorem visit_arg_pats_spec {icx : InferCtxt} : ∀ {args : List Arg} {s s' : WState},
    visit_arg_pats icx args s = .ok s' →
    StepKeys (args.flatMap (fun a => a.pat.ids)) s.tables s'.tables ∧
    (∀ j ∈ args.flatMap (fun a => a.pat.ids), j ∈ keysA s'.tables.node_types) ∧
    ValuesStep s.tables s'.tables ∧
    SideUnchanged s.fcx_tables s'.fcx_tables := by
  intro args
  induction args with
  | nil =>
      intro s s' h
      simp only [visit_arg_pats, Except.ok.injEq] at h
      subst h
      exact ⟨StepKeys.refl _ _, by intro j hj; simp at hj, ValuesStep.refl _,
             SideUnchanged.refl _⟩
  | cons a rest ih =>
      intro s s' h
      simp only [visit_arg_pats] at h
      rcases hn : visit_pat icx a.pat s with e | s1
      · simp only [hn] at h
        exact Except.noConfusion h
      · simp only [hn] at h
        obtain ⟨NK, Nmem, NV, Nf⟩ := visit_pat_spec hn
        obtain ⟨RK, Rmem, RV, Rf⟩ := ih h
        refine ⟨?_, ?_, NV.comp RV, Nf.comp Rf⟩
        · exact NK.trans RK
        · intro j hj
          simp only [List.flatMap_cons, List.mem_append] at hj
          rcases hj with hj | hj
          · exact RK.nt_mem (Nmem j hj)
          · exact Rmem j hj

theorem visit_expr_spec {icx : InferCtxt} : ∀ {e : Expr} {s s' : WState},
    visit_expr icx e s = .ok s' →
    StepKeys e.ids s.tables s'.tables ∧
    (∀ j ∈ e.ids, j ∈ keysA s'.tables.node_types) ∧
    ValuesStep s.tables s'.tables ∧
    SideUnchanged s.fcx_tables s'.fcx_tables := by
  intro e
  induction e with
  | lit i =>
      intro s s' h
      simp only [visit_expr] at h
      rcases hx : fix_scalar_builtin_expr icx (.lit i) s with e | s1
      · simp only [hx] at h
        exact Except.noConfusion h
      · simp only [hx] at h
        obtain ⟨Xt, Xst, Xf⟩ := fix_scalar_spec hx
        obtain ⟨NK, Nmem, NV, Nf, _, _⟩ := visit_node_id_spec h
        rw [Xt] at NK NV
        refine ⟨NK, ?_, NV, Xf.comp Nf⟩
        intro j hj
        rcases List.mem_cons.mp hj with hj | hj
        · exact hj ▸ Nmem
        · simp at hj
  | unary i uop inner ih =>
      intro s s' h
      simp only [visit_expr] at h
      rcases hx : fix_scalar_builtin_expr icx (.unary i uop inner) s with e | s1
      · simp only [hx] at h
        exact Except.noConfusion h
      · simp only [hx] at h
        rcases hn : visit_node_id icx i s1 with e | s2
        · simp only [hn] at h
          exact Except.noConfusion h
        · simp only [hn] at h
          obtain ⟨Xt, Xst, Xf⟩ := fix_scalar_spec hx
          obtain ⟨NK, Nmem, NV, Nf, _, _⟩ := visit_node_id_spec hn
          rw [Xt] at NK NV
          obtain ⟨RK, Rmem, RV, RF⟩ := ih h
          refine ⟨?_, ?_, NV.comp RV, Xf.comp (Nf.comp RF)⟩
          · exact ⟨prefix_step_cons NK.nt RK.nt, prefix_step_cons NK.ns RK.ns,
                   prefix_step_cons NK.tdd RK.tdd, prefix_step_cons NK.adj RK.adj,
                   prefix_step_cons NK.pbm RK.pbm, prefix_step_cons NK.padj RK.padj,
                   NK.side.comp RK.side⟩
          · intro j hj
            rcases List.mem_cons.mp hj with hj | hj
            · exact hj ▸ RK.nt_mem Nmem
            · exact Rmem j hj
  | binary i op lhs rhs ihl ihr =>
      intro s s' h
      simp only [visit_expr] at h
      rcases hx : fix_scalar_builtin_expr icx (.binary i op lhs rhs) s with e | s1
      · simp only [hx] at h
        exact Except.noConfusion h
      · simp only [hx] at h
        rcases hn : visit_node_id icx i s1 with e | s2
        · simp only [hn] at h
          exact Except.noConfusion h
        · simp only [hn] at h
          rcases hL : visit_expr icx lhs s2 with e | s3
          · simp only [hL] at h
            exact Except.noConfusion h
          · simp only [hL] at h
            obtain ⟨Xt, Xst, Xf⟩ := fix_scalar_spec hx
            obtain ⟨NK, Nmem, NV, Nf, _, _⟩ := visit_node_id_spec hn
            rw [Xt] at NK NV
            obtain ⟨LK, Lmem, LV, LF⟩ := ihl hL
            obtain ⟨RK, Rmem, RV, RF⟩ := ihr h
            have CK := LK.trans RK
            refine ⟨?_, ?_, NV.comp (LV.comp RV), Xf.comp (Nf.comp (LF.comp RF))⟩
            · exact ⟨prefix_step_cons NK.nt CK.nt, prefix_step_cons NK.ns CK.ns,
                     prefix_step_cons NK.tdd CK.tdd, prefix_step_cons NK.adj CK.adj,
                     prefix_step_cons NK.pbm CK.pbm, prefix_step_cons NK.padj CK.padj,
                     NK.side.comp CK.side⟩
            · intro j hj
              rcases List.mem_cons.mp hj with hj | hj
              · exact hj ▸ RK.nt_mem (LK.nt_mem Nmem)
              · rcases List.mem_append.mp hj with hj | hj
                · exact RK.nt_mem (Lmem j hj)
                · exact Rmem j hj
  | assignOp i op lhs rhs ihl ihr =>
      intro s s' h
      simp only [visit_expr] at h
      rcases hx : fix_scalar_builtin_expr icx (.assignOp i op lhs rhs) s with e | s1
      · simp only [hx] at h
        exact Except.noConfusion h
      · simp only [hx] at h
        rcases hn : visit_node_id icx i s1 with e | s2
        · simp only [hn] at h
          exact Except.noConfusion h
        · simp only [hn] at h
          rcases hL : visit_expr icx lhs s2 with e | s3
          · simp only [hL] at h
            exact Except.noConfusion h
          · simp only [hL] at h
            obtain ⟨Xt, Xst, Xf⟩ := fix_scalar_spec hx
            obtain ⟨NK, Nmem, NV, Nf, _, _⟩ := visit_node_id_spec hn
            rw [Xt] at NK NV
            obtain ⟨LK, Lmem, LV, LF⟩ := ihl hL
            obtain ⟨RK, Rmem, RV, RF⟩ := ihr h
            have CK := LK.trans RK
            refine ⟨?_, ?_, NV.comp (LV.comp RV), Xf.comp (Nf.comp (LF.comp RF))⟩
            · exact ⟨prefix_step_cons NK.nt CK.nt, prefix_step_cons NK.ns CK.ns,
                     prefix_step_cons NK.tdd CK.tdd, prefix_step_cons NK.adj CK.adj,
                     prefix_step_cons NK.pbm CK.pbm, prefix_step_cons NK.padj CK.padj,
                     NK.side.comp CK.side⟩
            · intro j hj
              rcases List.mem_cons.mp hj with hj | hj
              · exact hj ▸ RK.nt_mem (LK.nt_mem Nmem)
              · rcases List.mem_append.mp hj with hj | hj
                · exact RK.nt_mem (Lmem j hj)
                · exact Rmem j hj
  | closure i args body ih =>
      intro s s' h
      simp only [visit_expr] at h
      rcases hx : fix_scalar_builtin_expr icx (.closure i args body) s with e | s1
      · simp only [hx] at h
        exact Except.noConfusion h
      · simp only [hx] at h
        rcases hn : visit_node_id icx i s1 with e | s2
        · simp only [hn] at h
          exact Except.noConfusion h
        · simp only [hn] at h
          rcases hA : visit_arg_ids icx args s2 with e | s3
          · simp only [hA] at h
            exact Except.noConfusion h
          · simp only [hA] at h
            rcases hP : visit_arg_pats icx args s3 with e | s4
            · simp only [hP] at h
              exact Except.noConfusion h
            · simp only [hP] at h
              obtain ⟨Xt, Xst, Xf⟩ := fix_scalar_spec hx
              obtain ⟨NK, Nmem, NV, Nf, _, _⟩ := visit_node_id_spec hn
              rw [Xt] at NK NV
              obtain ⟨AK, Amem, AV, AF⟩ := visit_arg_ids_spec hA
              obtain ⟨PK, Pmem, PV, PF⟩ := visit_arg_pats_spec hP
              obtain ⟨BK, Bmem, BV, BF⟩ := ih h
              have CK := AK.trans (PK.trans BK)
              refine ⟨?_, ?_, NV.comp (AV.comp (PV.comp BV)),
                      Xf.comp (Nf.comp (AF.comp (PF.comp BF)))⟩
              · exact ⟨prefix_step_cons NK.nt CK.nt, prefix_step_cons NK.ns CK.ns,
                       prefix_step_cons NK.tdd CK.tdd, prefix_step_cons NK.adj CK.adj,
                       prefix_step_cons NK.pbm CK.pbm, prefix_step_cons NK.padj CK.padj,
                       NK.side.comp CK.side⟩
              · intro j hj
                rcases List.mem_cons.mp hj with hj | hj
                · exact hj ▸ BK.nt_mem (PK.nt_mem (AK.nt_mem Nmem))
                · rcases List.mem_append.mp hj with hj | hj
                  · exact BK.nt_mem (PK.nt_mem (Amem j hj))
                  · rcases List.mem_append.mp hj with hj | hj
                    · exact BK.nt_mem (Pmem j hj)
                    · exact Bmem j hj

/-! ## Step specifications for the side-table passes -/

def PassKeys.refl (t : TypeckTables) :
    PassKeys [] [] [] [] [] [] [] [] [] t t :=
  ⟨rfl, rfl, rfl, rfl, rfl, rfl, rfl, rfl, rfl, rfl, rfl, rfl, rfl, rfl⟩

def PassKeys.comp
    {ant1 : List HirId} {auv1 : List UpvarId}
    {act1 ack1 acast1 alib1 afru1 ags1 agi1 : List HirId}
    {ant2 : List HirId} {auv2 : List UpvarId}
    {act2 ack2 acast2 alib2 afru2 ags2 agi2 : List HirId}
    {t1 t2 t3 : TypeckTables}
    (h1 : PassKeys ant1 auv1 act1 ack1 acast1 alib1 afru1 ags1 agi1 t1 t2)
    (h2 : PassKeys ant2 auv2 act2 ack2 acast2 alib2 afru2 ags2 agi2 t2 t3) :
    PassKeys (ant2 ++ ant1) (auv2 ++ auv1) (act2 ++ act1) (ack2 ++ ack1)
      (acast2 ++ acast1) (alib2 ++ alib1) (afru2 ++ afru1) (ags2 ++ ags1)
      (agi2 ++ agi1) t1 t3 :=
  ⟨by rw [h2.nt, h1.nt, List.append_assoc], h2.ns.trans h1.ns,
   h2.tdd.trans h1.tdd, h2.adj.trans h1.adj, h2.pbm.trans h1.pbm,
   h2.padj.trans h1.padj,
   by rw [h2.uv, h1.uv, List.append_assoc],
   by rw [h2.ct, h1.ct, List.append_assoc],
   by rw [h2.ck, h1.ck, List.append_assoc],
   by rw [h2.cast, h1.cast, List.append_assoc],
   by rw [h2.lib, h1.lib, List.append_assoc],
   by rw [h2.fru, h1.fru, List.append_assoc],
   by rw [h2.gs, h1.gs, List.append_assoc],
   by rw [h2.gi, h1.gi, List.append_assoc]⟩

theorem PassKeys.insert_nt (t : TypeckTables) (k : HirId) (v : Ty) :
    PassKeys [k] [] [] [] [] [] [] [] [] t
      { t with node_types := insertA t.node_types k v } :=
  ⟨rfl, rfl, rfl, rfl, rfl, rfl, rfl, rfl, rfl, rfl, rfl, rfl, rfl, rfl⟩

theorem PassKeys.insert_uv (t : TypeckTables) (k : UpvarId) (v : UpvarCapture) :
    PassKeys [] [k] [] [] [] [] [] [] [] t
      { t with upvar_capture_map := insertA t.upvar_capture_map k v } :=
  ⟨rfl, rfl, rfl, rfl, rfl, rfl, rfl, rfl, rfl, rfl, rfl, rfl, rfl, rfl⟩

theorem PassKeys.insert_ct (t : TypeckTables) (k : HirId) (v : Ty) :
    PassKeys [] [] [k] [] [] [] [] [] [] t
      { t with closure_tys := insertA t.closure_tys k v } :=
  ⟨rfl, rfl, rfl, rfl, rfl, rfl, rfl, rfl, rfl, rfl, rfl, rfl, rfl, rfl⟩

theorem PassKeys.insert_ck (t : TypeckTables) (k : HirId) (v : Nat) :
    PassKeys [] [] [] [k] [] [] [] [] [] t
      { t with closure_kinds := insertA t.closure_kinds k v } :=
  ⟨rfl, rfl, rfl, rfl, rfl, rfl, rfl, rfl, rfl, rfl, rfl, rfl, rfl, rfl⟩

theorem PassKeys.insert_cast (t : TypeckTables) (k : HirId) (v : Nat) :
    PassKeys [] [] [] [] [k] [] [] [] [] t
      { t with cast_kinds := insertA t.cast_kinds k v } :=
  ⟨rfl, rfl, rfl, rfl, rfl, rfl, rfl, rfl, rfl, rfl, rfl, rfl, rfl, rfl⟩

theorem PassKeys.insert_lib (t : TypeckTables) (k : HirId) (v : FnSig) :
    PassKeys [] [] [] [] [] [k] [] [] [] t
      { t with liberated_fn_sigs := insertA t.liberated_fn_sigs k v } :=
  ⟨rfl, rfl, rfl, rfl, rfl, rfl, rfl, rfl, rfl, rfl, rfl, rfl, rfl, rfl⟩

theorem PassKeys.insert_fru (t : TypeckTables) (k : HirId) (v : List Ty) :
    PassKeys [] [] [] [] [] [] [k] [] [] t
      { t with fru_field_types := insertA t.fru_field_types k v } :=
  ⟨rfl, rfl, rfl, rfl, rfl, rfl, rfl, rfl, rfl, rfl, rfl, rfl, rfl, rfl⟩

theorem PassKeys.insert_gs (t : TypeckTables) (k : HirId) (v : Option GenSig) :
    PassKeys [] [] [] [] [] [] [] [k] [] t
      { t with generator_sigs := insertA t.generator_sigs k v } :=
  ⟨rfl, rfl, rfl, rfl, rfl, rfl, rfl, rfl, rfl, rfl, rfl, rfl, rfl, rfl⟩

theorem PassKeys.insert_gi (t : TypeckTables) (k : HirId) (v : Ty) :
    PassKeys [] [] [] [] [] [] [] [] [k] t
      { t with generator_interiors := insertA t.generator_interiors k v } :=
  ⟨rfl, rfl, rfl, rfl, rfl, rfl, rfl, rfl, rfl, rfl, rfl, rfl, rfl, rfl⟩

theorem upvar_entries_spec {icx : InferCtxt} :
    ∀ (l : List (UpvarId × UpvarCapture)) {s s' : WState},
      upvar_entries icx l s = .ok s' →
      PassKeys [] (keysA l).reverse [] [] [] [] [] [] [] s.tables s'.tables ∧
      s'.fcx_tables = s.fcx_tables ∧
      ValuesStep s.tables s'.tables := by
  intro l
  induction l with
  | nil =>
      intro s s' h
      simp only [upvar_entries, Except.ok.injEq] at h
      subst h
      exact ⟨PassKeys.refl _, rfl, ValuesStep.refl _⟩
  | cons p rest ih =>
      intro s s' h
      obtain ⟨uid, cap⟩ := p
      cases cap with
      | byValue =>
          simp only [upvar_entries] at h
          obtain ⟨K, F, V⟩ := ih h
          refine ⟨?_, F, ?_⟩
          · show PassKeys [] ((uid :: keysA rest)).reverse [] [] [] [] [] [] []
              s.tables s'.tables
            rw [List.reverse_cons]
            exact PassKeys.comp (PassKeys.insert_uv _ _ _) K
          · refine ValuesStep.comp ?_ V
            exact ⟨mem_step_refl _, mem_step_refl _, mem_step_refl _, mem_step_refl _,
                   mem_step_cons rfl, mem_step_refl _, mem_step_refl _, mem_step_refl _,
                   mem_step_refl _, mem_step_refl _, mem_step_refl _⟩
      | byRef kind r =>
          simp only [upvar_entries] at h
          rcases hf : fold_region icx s.st r with ⟨r', st'⟩
          have hok : upvarNeedsInfer (UpvarCapture.byRef kind r') = false := by
            have hh := fold_region_noInfer icx s.st r
            rw [hf] at hh
            exact hh
          simp only [resolveRegion_eq, hf] at h
          obtain ⟨K, F, V⟩ := ih h
          refine ⟨?_, F, ?_⟩
          · show PassKeys [] ((uid :: keysA rest)).reverse [] [] [] [] [] [] []
              s.tables s'.tables
            rw [List.reverse_cons]
            exact PassKeys.comp (PassKeys.insert_uv _ _ _) K
          · refine ValuesStep.comp ?_ V
            exact ⟨mem_step_refl _, mem_step_refl _, mem_step_refl _, mem_step_refl _,
                   mem_step_cons hok, mem_step_refl _, mem_step_refl _, mem_step_refl _,
                   mem_step_refl _, mem_step_refl _, mem_step_refl _⟩

theorem visit_upvar_borrow_map_spec {icx : InferCtxt} {s s' : WState}
    (h : visit_upvar_borrow_map icx s = .ok s') :
    PassKeys [] (keysA s.fcx_tables.upvar_capture_map).reverse [] [] [] [] [] [] []
      s.tables s'.tables ∧
    s'.fcx_tables = s.fcx_tables ∧
    ValuesStep s.tables s'.tables :=
  upvar_entries_spec _ h

theorem closure_ty_entries_spec {icx : InferCtxt} {root : Nat} :
    ∀ (l : List (HirId × Ty)) {s s' : WState},
      closure_ty_entries icx root l s = .ok s' →
      PassKeys [] [] ((l.map (fun p => rekey root p.1)).reverse) [] [] [] [] [] []
        s.tables s'.tables ∧
      s'.fcx_tables = s.fcx_tables ∧
      ValuesStep s.tables s'.tables := by
  intro l
  induction l with
  | nil =>
      intro s s' h
      simp only [closure_ty_entries, Except.ok.injEq] at h
      subst h
      exact ⟨PassKeys.refl _, rfl, ValuesStep.refl _⟩
  | cons p rest ih =>
      intro s s' h
      obtain ⟨k, cty⟩ := p
      simp only [closure_ty_entries] at h
      rcases hf : fold_ty icx s.st cty with ⟨cty', st'⟩
      have hok : needsInfer cty' = false := by
        have hh := fold_ty_noInfer icx s.st cty
        rw [hf] at hh
        exact hh
      simp only [resolveTy_eq, hf] at h
      obtain ⟨K, F, V⟩ := ih h
      refine ⟨?_, F, ?_⟩
      · show PassKeys [] []
          ((rekey root k :: rest.map (fun p => rekey root p.1))).reverse
          [] [] [] [] [] [] s.tables s'.tables
        rw [List.reverse_cons]
        exact PassKeys.comp (PassKeys.insert_ct _ _ _) K
      · refine ValuesStep.comp ?_ V
        exact ⟨mem_step_refl _, mem_step_refl _, mem_step_refl _, mem_step_refl _,
               mem_step_refl _, mem_step_cons hok, mem_step_refl _, mem_step_refl _,
               mem_step_refl _, mem_step_refl _, mem_step_refl _⟩

theorem closure_kind_entries_spec (root : Nat) :
    ∀ (l : List (HirId × Nat)) (tbl : TypeckTables),
      PassKeys [] [] [] ((l.map (fun p => rekey root p.1)).reverse) [] [] [] [] []
        tbl (closure_kind_entries root l tbl) ∧
      ValuesStep tbl (closure_kind_entries root l tbl) := by
  intro l
  induction l with
  | nil =>
      intro tbl
      exact ⟨PassKeys.refl _, ValuesStep.refl _⟩
  | cons p rest ih =>
      intro tbl
      obtain ⟨k, kind⟩ := p
      obtain ⟨K, V⟩ := ih
        { tbl with closure_kinds := insertA tbl.closure_kinds (rekey root k) kind }
      constructor
      · show PassKeys [] [] []
          ((rekey root k :: rest.map (fun p => rekey root p.1))).reverse
          [] [] [] [] [] tbl (closure_kind_entries root ((k, kind) :: rest) tbl)
        rw [List.reverse_cons]
        exact PassKeys.comp (PassKeys.insert_ck _ _ _) K
      · refine ValuesStep.comp ?_ V
        exact ⟨mem_step_refl _, mem_step_refl _, mem_step_refl _, mem_step_refl _,
               mem_step_refl _, mem_step_refl _, mem_step_refl _, mem_step_refl _,
               mem_step_refl _, mem_step_refl _, mem_step_refl _⟩

theorem visit_closures_spec {icx : InferCtxt} {s s' : WState} {root : Nat}
    (h : visit_closures icx s = .ok s')
    (hr : s.fcx_tables.local_id_root = some root) :
    PassKeys [] []
      ((s.fcx_tables.closure_tys.map (fun p => rekey root p.1)).reverse)
      ((s.fcx_tables.closure_kinds.map (fun p => rekey root p.1)).reverse)
      [] [] [] [] [] s.tables s'.tables ∧
    s'.fcx_tables = s.fcx_tables ∧
    ValuesStep s.tables s'.tables := by
  unfold visit_closures at h
  rw [hr] at h
  simp only [] at h
  rcases hc : closure_ty_entries icx root s.fcx_tables.closure_tys s with e | sA
  · simp only [hc] at h
    exact Except.noConfusion h
  · simp only [hc] at h
    simp only [Except.ok.injEq] at h
    subst h
    obtain ⟨K, F, V⟩ := closure_ty_entries_spec _ hc
    obtain ⟨K2, V2⟩ := closure_kind_entries_spec root sA.fcx_tables.closure_kinds sA.tables
    refine ⟨?_, F, V.comp V2⟩
    have KK := K.comp K2
    simpa [F] using KK

theorem cast_kind_entries_spec (root : Nat) :
    ∀ (l : List (HirId × Nat)) (tbl : TypeckTables),
      PassKeys [] [] [] [] ((l.map (fun p => rekey root p.1)).reverse) [] [] [] []
        tbl (cast_kind_entries root l tbl) ∧
      ValuesStep tbl (cast_kind_entries root l tbl) := by
  intro l
  induction l with
  | nil =>
      intro tbl
      exact ⟨PassKeys.refl _, ValuesStep.refl _⟩
  | cons p rest ih =>
      intro tbl
      obtain ⟨k, kind⟩ := p
      obtain ⟨K, V⟩ := ih
        { tbl with cast_kinds := insertA tbl.cast_kinds (rekey root k) kind }
      constructor
      · show PassKeys [] [] [] []
          ((rekey root k :: rest.map (fun p => rekey root p.1))).reverse
          [] [] [] [] tbl (cast_kind_entries root ((k, kind) :: rest) tbl)
        rw [List.reverse_cons]
        exact PassKeys.comp (PassKeys.insert_cast _ _ _) K
      · refine ValuesStep.comp ?_ V
        exact ⟨mem_step_refl _, mem_step_refl _, mem_step_refl _, mem_step_refl _,
               mem_step_refl _, mem_step_refl _, mem_step_refl _, mem_step_refl _,
               mem_step_refl _, mem_step_refl _, mem_step_refl _⟩

theorem visit_cast_types_spec {s s' : WState} {root : Nat}
    (h : visit_cast_types s = .ok s')
    (hr : s.fcx_tables.local_id_root = some root) :
    PassKeys [] [] [] []
      ((s.fcx_tables.cast_kinds.map (fun p => rekey root p.1)).reverse)
      [] [] [] [] s.tables s'.tables ∧
    s'.fcx_tables = s.fcx_tables ∧
    ValuesStep s.tables s'.tables := by
  unfold visit_cast_types at h
  rw [hr] at h
  simp only [Except.ok.injEq] at h
  subst h
  obtain ⟨K, V⟩ := cast_kind_entries_spec root s.fcx_tables.cast_kinds s.tables
  exact ⟨K, rfl, V⟩

theorem visit_free_region_map_spec {s s' : WState}
    (h : visit_free_region_map s = .ok s') :
    PassKeys [] [] [] [] [] [] [] [] [] s.tables s'.tables ∧
    s'.fcx_tables = s.fcx_tables ∧
    ValuesStep s.tables s'.tables := by
  unfold visit_free_region_map at h
  by_cases hc : s.fcx_tables.free_region_map.all
      (fun p => !regionNeedsInfer p.1 && !regionNeedsInfer p.2) = true
  · simp only [hc, if_true, Except.ok.injEq] at h
    subst h
    refine ⟨⟨rfl, rfl, rfl, rfl, rfl, rfl, rfl, rfl, rfl, rfl, rfl, rfl, rfl, rfl⟩,
            rfl, ?_⟩
    refine ⟨mem_step_refl _, mem_step_refl _, mem_step_refl _, mem_step_refl _,
            mem_step_refl _, mem_step_refl _, mem_step_refl _, mem_step_refl _,
            mem_step_refl _, mem_step_refl _, ?_⟩
    intro p hp
    refine Or.inr ?_
    have hh := List.all_eq_true.mp hc p hp
    simp only [Bool.and_eq_true, Bool.not_eq_true'] at hh
    exact hh
  · simp only [Bool.not_eq_true] at hc
    simp [hc] at h

theorem anon_region_noVar {st : St} {inside : Ty} {r r' : Region} {st2 : St}
    (h : anon_region st inside r = .ok (r', st2)) : regionNeedsInfer r' = false := by
  cases r <;> simp only [anon_region, Except.ok.injEq, Prod.mk.injEq] at h <;>
    first
      | exact Except.noConfusion h
      | (obtain ⟨h1, h2⟩ := h
         rw [← h1]
         rfl)

theorem anon_fold_ty_noInfer (inside : Ty) :
    ∀ (t : Ty) (st : St) (t' : Ty) (st' : St),
      needsInfer t = false → anon_fold_ty inside st t = .ok (t', st') →
      needsInfer t' = false := by
  intro t
  induction t with
  | ref r u ih =>
      intro st t' st' hin h
      simp only [needsInfer, Bool.or_eq_false_iff] at hin
      unfold anon_fold_ty at h
      rcases hA : anon_region st inside r with e | ⟨r1, st1⟩
      · simp only [hA] at h
        exact Except.noConfusion h
      · simp only [hA] at h
        rcases hB : anon_fold_ty inside st1 u with e | ⟨t1, st2⟩
        · simp only [hB] at h
          exact Except.noConfusion h
        · simp only [hB, Except.ok.injEq, Prod.mk.injEq] at h
          obtain ⟨h1, h2⟩ := h
          rw [← h1]
          simp only [needsInfer, Bool.or_eq_false_iff]
          exact ⟨anon_region_noVar hA, ih st1 t1 st2 hin.2 hB⟩
  | pair a b iha ihb =>
      intro st t' st' hin h
      simp only [needsInfer, Bool.or_eq_false_iff] at hin
      unfold anon_fold_ty at h
      rcases hA : anon_fold_ty inside st a with e | ⟨a1, st1⟩
      · simp only [hA] at h
        exact Except.noConfusion h
      · simp only [hA] at h
        rcases hB : anon_fold_ty inside st1 b with e | ⟨b1, st2⟩
        · simp only [hB] at h
          exact Except.noConfusion h
        · simp only [hB, Except.ok.injEq, Prod.mk.injEq] at h
          obtain ⟨h1, h2⟩ := h
          rw [← h1]
          simp only [needsInfer, Bool.or_eq_false_iff]
          exact ⟨iha st a1 st1 hin.1 hA, ihb st1 b1 st2 hin.2 hB⟩
  | bool => intro st t' st' hin h; cases h; exact hin
  | char => intro st t' st' hin h; cases h; exact hin
  | int w => intro st t' st' hin h; cases h; exact hin
  | uint w => intro st t' st' hin h; cases h; exact hin
  | float w => intro st t' st' hin h; cases h; exact hin
  | adt n => intro st t' st' hin h; cases h; exact hin
  | infer v => intro st t' st' hin h; cases h; exact hin
  | err => intro st t' st' hin h; cases h; exact hin

theorem anon_entries_spec {icx : InferCtxt} :
    ∀ (l : List (HirId × Ty)) {s s' : WState},
      anon_entries icx l s = .ok s' →
      PassKeys (keysA l).reverse [] [] [] [] [] [] [] [] s.tables s'.tables ∧
      s'.fcx_tables = s.fcx_tables ∧
      ValuesStep s.tables s'.tables := by
  intro l
  induction l with
  | nil =>
      intro s s' h
      simp only [anon_entries, Except.ok.injEq] at h
      subst h
      exact ⟨PassKeys.refl _, rfl, ValuesStep.refl _⟩
  | cons p rest ih =>
      intro s s' h
      obtain ⟨nid, cty⟩ := p
      simp only [anon_entries] at h
      rcases hf : fold_ty icx s.st cty with ⟨inside_ty, st1⟩
      have hok1 : needsInfer inside_ty = false := by
        have hh := fold_ty_noInfer icx s.st cty
        rw [hf] at hh
        exact hh
      simp only [resolveTy_eq, hf] at h
      rcases hg : anon_fold_ty inside_ty st1 inside_ty with e | ⟨outside_ty, st2⟩
      · simp only [hg] at h
        exact Except.noConfusion h
      · simp only [hg] at h
        have hok2 : needsInfer outside_ty = false :=
          anon_fold_ty_noInfer inside_ty inside_ty st1 outside_ty st2 hok1 hg
        obtain ⟨K, F, V⟩ := ih h
        refine ⟨?_, F, ?_⟩
        · show PassKeys ((nid :: keysA rest)).reverse [] [] [] [] [] [] [] []
            s.tables s'.tables
          rw [List.reverse_cons]
          exact PassKeys.comp (PassKeys.insert_nt _ _ _) K
        · refine ValuesStep.comp ?_ V
          exact ⟨mem_step_cons hok2, mem_step_refl _, mem_step_refl _, mem_step_refl _,
                 mem_step_refl _, mem_step_refl _, mem_step_refl _, mem_step_refl _,
                 mem_step_refl _, mem_step_refl _, mem_step_refl _⟩

theorem visit_anon_types_spec {icx : InferCtxt} {anon : List (HirId × Ty)}
    {s s' : WState} (h : visit_anon_types icx anon s = .ok s') :
    PassKeys (keysA anon).reverse [] [] [] [] [] [] [] [] s.tables s'.tables ∧
    s'.fcx_tables = s.fcx_tables ∧
    ValuesStep s.tables s'.tables :=
  anon_entries_spec _ h

theorem generator_sig_entries_spec {icx : InferCtxt} {root : Nat} :
    ∀ (l : List (HirId × Option GenSig)) {s s' : WState},
      generator_sig_entries icx root l s = .ok s' →
      PassKeys [] [] [] [] [] [] []
        ((l.map (fun p => rekey root p.1)).reverse) [] s.tables s'.tables ∧
      s'.fcx_tables = s.fcx_tables ∧
      ValuesStep s.tables s'.tables := by
  intro l
  induction l with
  | nil =>
      intro s s' h
      simp only [generator_sig_entries, Except.ok.injEq] at h
      subst h
      exact ⟨PassKeys.refl _, rfl, ValuesStep.refl _⟩
  | cons p rest ih =>
      intro s s' h
      obtain ⟨k, gsig⟩ := p
      cases gsig with
      | none =>
          simp only [generator_sig_entries] at h
          obtain ⟨K, F, V⟩ := ih h
          refine ⟨?_, F, ?_⟩
          · show PassKeys [] [] [] [] [] [] []
              ((rekey root k :: rest.map (fun p => rekey root p.1))).reverse []
              s.tables s'.tables
            rw [List.reverse_cons]
            exact PassKeys.comp (PassKeys.insert_gs _ _ _) K
          · refine ValuesStep.comp ?_ V
            exact ⟨mem_step_refl _, mem_step_refl _, mem_step_refl _, mem_step_refl _,
                   mem_step_refl _, mem_step_refl _, mem_step_refl _, mem_step_refl _,
                   mem_step_cons rfl, mem_step_refl _, mem_step_refl _⟩
      | some gs =>
          simp only [generator_sig_entries] at h
          rcases hy : fold_ty icx s.st gs.yield_ty with ⟨y', st1⟩
          have hoky : needsInfer y' = false := by
            have hh := fold_ty_noInfer icx s.st gs.yield_ty
            rw [hy] at hh
            exact hh
          simp only [resolveTy_eq, hy] at h
          rcases hr : fold_ty icx st1 gs.return_ty with ⟨r', st2⟩
          have hokr : needsInfer r' = false := by
            have hh := fold_ty_noInfer icx st1 gs.return_ty
            rw [hr] at hh
            exact hh
          simp only [hr] at h
          have hok : gsigNeedsInfer (some { yield_ty := y', return_ty := r' }) = false := by
            simp [gsigNeedsInfer, hoky, hokr]
          obtain ⟨K, F, V⟩ := ih h
          refine ⟨?_, F, ?_⟩
          · show PassKeys [] [] [] [] [] [] []
              ((rekey root k :: rest.map (fun p => rekey root p.1))).reverse []
              s.tables s'.tables
            rw [List.reverse_cons]
            exact PassKeys.comp (PassKeys.insert_gs _ _ _) K
          · refine ValuesStep.comp ?_ V
            exact ⟨mem_step_refl _, mem_step_refl _, mem_step_refl _, mem_step_refl _,
                   mem_step_refl _, mem_step_refl _, mem_step_refl _, mem_step_refl _,
                   mem_step_cons hok, mem_step_refl _, mem_step_refl _⟩

theorem visit_generator_sigs_spec {icx : InferCtxt} {s s' : WState} {root : Nat}
    (h : visit_generator_sigs icx s = .ok s')
    (hr : s.fcx_tables.local_id_root = some root) :
    PassKeys [] [] [] [] [] [] []
      ((s.fcx_tables.generator_sigs.map (fun p => rekey root p.1)).reverse) []
      s.tables s'.tables ∧
    s'.fcx_tables = s.fcx_tables ∧
    ValuesStep s.tables s'.tables := by
  unfold visit_generator_sigs at h
  rw [hr] at h
  exact generator_sig_entries_spec _ h

theorem generator_interior_entries_spec {icx : InferCtxt} {root : Nat} :
    ∀ (l : List (HirId × Ty)) {s s' : WState},
      generator_interior_entries icx root l s = .ok s' →
      PassKeys [] [] [] [] [] [] [] []
        ((l.map (fun p => rekey root p.1)).reverse) s.tables s'.tables ∧
      s'.fcx_tables = s.fcx_tables ∧
      ValuesStep s.tables s'.tables := by
  intro l
  induction l with
  | nil =>
      intro s s' h
      simp only [generator_interior_entries, Except.ok.injEq] at h
      subst h
      exact ⟨PassKeys.refl _, rfl, ValuesStep.refl _⟩
  | cons p rest ih =>
      intro s s' h
      obtain ⟨k, ity⟩ := p
      simp only [generator_interior_entries] at h
      rcases hf : fold_ty icx s.st ity with ⟨ity', st'⟩
      have hok : needsInfer ity' = false := by
        have hh := fold_ty_noInfer icx s.st ity
        rw [hf] at hh
        exact hh
      simp only [resolveTy_eq, hf] at h
      obtain ⟨K, F, V⟩ := ih h
      refine ⟨?_, F, ?_⟩
      · show PassKeys [] [] [] [] [] [] [] []
          ((rekey root k :: rest.map (fun p => rekey root p.1))).reverse
          s.tables s'.tables
        rw [List.reverse_cons]
        exact PassKeys.comp (PassKeys.insert_gi _ _ _) K
      · refine ValuesStep.comp ?_ V
        exact ⟨mem_step_refl _, mem_step_refl _, mem_step_refl _, mem_step_refl _,
               mem_step_refl _, mem_step_refl _, mem_step_refl _, mem_step_refl _,
               mem_step_refl _, mem_step_cons hok, mem_step_refl _⟩

theorem visit_generator_interiors_spec {icx : InferCtxt} {s s' : WState} {root : Nat}
    (h : visit_generator_interiors icx s = .ok s')
    (hr : s.fcx_tables.local_id_root = some root) :
    PassKeys [] [] [] [] [] [] [] []
      ((s.fcx_tables.generator_interiors.map (fun p => rekey root p.1)).reverse)
      s.tables s'.tables ∧
    s'.fcx_tables = s.fcx_tables ∧
    ValuesStep s.tables s'.tables := by
  unfold visit_generator_interiors at h
  rw [hr] at h
  exact generator_interior_entries_spec _ h

theorem liberated_sig_entries_spec {icx : InferCtxt} {root : Nat} :
    ∀ (l : List (HirId × FnSig)) {s s' : WState},
      liberated_sig_entries icx root l s = .ok s' →
      PassKeys [] [] [] [] []
        ((l.map (fun p => rekey root p.1)).reverse) [] [] [] s.tables s'.tables ∧
      s'.fcx_tables = s.fcx_tables ∧
      ValuesStep s.tables s'.tables := by
  intro l
  induction l with
  | nil =>
      intro s s' h
      simp only [liberated_sig_entries, Except.ok.injEq] at h
      subst h
      exact ⟨PassKeys.refl _, rfl, ValuesStep.refl _⟩
  | cons p rest ih =>
      intro s s' h
      obtain ⟨k, fsig⟩ := p
      simp only [liberated_sig_entries] at h
      rcases hf : fold_fn_sig icx s.st fsig with ⟨fsig', st'⟩
      have hok : sigNeedsInfer fsig' = false := by
        have hh := fold_fn_sig_noInfer icx s.st fsig
        rw [hf] at hh
        exact hh
      simp only [resolveFnSig_eq, hf] at h
      obtain ⟨K, F, V⟩ := ih h
      refine ⟨?_, F, ?_⟩
      · show PassKeys [] [] [] [] []
          ((rekey root k :: rest.map (fun p => rekey root p.1))).reverse [] [] []
          s.tables s'.tables
        rw [List.reverse_cons]
        exact PassKeys.comp (PassKeys.insert_lib _ _ _) K
      · refine ValuesStep.comp ?_ V
        exact ⟨mem_step_refl _, mem_step_refl _, mem_step_refl _, mem_step_refl _,
               mem_step_refl _, mem_step_refl _, mem_step_cons hok, mem_step_refl _,
               mem_step_refl _, mem_step_refl _, mem_step_refl _⟩

theorem visit_liberated_fn_sigs_spec {icx : InferCtxt} {s s' : WState} {root : Nat}
    (h : visit_liberated_fn_sigs icx s = .ok s')
    (hr : s.fcx_tables.local_id_root = some root) :
    PassKeys [] [] [] [] []
      ((s.fcx_tables.liberated_fn_sigs.map (fun p => rekey root p.1)).reverse) [] [] []
      s.tables s'.tables ∧
    s'.fcx_tables = s.fcx_tables ∧
    ValuesStep s.tables s'.tables := by
  unfold visit_liberated_fn_sigs at h
  rw [hr] at h
  exact liberated_sig_entries_spec _ h

theorem fru_entries_spec {icx : InferCtxt} {root : Nat} :
    ∀ (l : List (HirId × List Ty)) {s s' : WState},
      fru_entries icx root l s = .ok s' →
      PassKeys [] [] [] [] [] []
        ((l.map (fun p => rekey root p.1)).reverse) [] [] s.tables s'.tables ∧
      s'.fcx_tables = s.fcx_tables ∧
      ValuesStep s.tables s'.tables := by
  intro l
  induction l with
  | nil =>
      intro s s' h
      simp only [fru_entries, Except.ok.injEq] at h
      subst h
      exact ⟨PassKeys.refl _, rfl, ValuesStep.refl _⟩
  | cons p rest ih =>
      intro s s' h
      obtain ⟨k, ftys⟩ := p
      simp only [fru_entries] at h
      rcases hf : fold_ty_list icx s.st ftys with ⟨ftys', st'⟩
      have hok : tyListNeedsInfer ftys' = false := by
        have hh := fold_ty_list_noInfer icx s.st ftys
        rw [hf] at hh
        exact hh
      simp only [resolveTyList_eq, hf] at h
      obtain ⟨K, F, V⟩ := ih h
      refine ⟨?_, F, ?_⟩
      · show PassKeys [] [] [] [] [] []
          ((rekey root k :: rest.map (fun p => rekey root p.1))).reverse [] []
          s.tables s'.tables
        rw [List.reverse_cons]
        exact PassKeys.comp (PassKeys.insert_fru _ _ _) K
      · refine ValuesStep.comp ?_ V
        exact ⟨mem_step_refl _, mem_step_refl _, mem_step_refl _, mem_step_refl _,
               mem_step_refl _, mem_step_refl _, mem_step_refl _, mem_step_cons hok,
               mem_step_refl _, mem_step_refl _, mem_step_refl _⟩

theorem visit_fru_field_types_spec {icx : InferCtxt} {s s' : WState} {root : Nat}
    (h : visit_fru_field_types icx s = .ok s')
    (hr : s.fcx_tables.local_id_root = some root) :
    PassKeys [] [] [] [] [] []
      ((s.fcx_tables.fru_field_types.map (fun p => rekey root p.1)).reverse) [] []
      s.tables s'.tables ∧
    s'.fcx_tables = s.fcx_tables ∧
    ValuesStep s.tables s'.tables := by
  unfold visit_fru_field_types at h
  rw [hr] at h
  exact fru_entries_spec _ h

/-- The combined specification of one finalization run: the output table
satisfies the no-inference-variable invariant, and the key list of every map
is exactly the keys written by its pass (traversal maps draw their keys
from the visited node identifiers, side-table maps from the re-keyed
in-progress entries, node types additionally from the opaque-type
registry). -/
theorem run_spec {icx : InferCtxt} {anon : List (HirId × Ty)} {owner : Nat}
    {body : Body} {fcx0 : TypeckTables} {st0 : St} {tbl : TypeckTables} {stf : St}
    {root : Nat}
    (h : resolve_type_vars_in_body icx anon owner body fcx0 st0 = .ok (tbl, stf))
    (hroot : fcx0.local_id_root = some root) :
    TablesOk tbl ∧
    (∃ l, l.Sublist (bodyIds body).reverse ∧
      keysA tbl.node_types = (keysA anon).reverse ++ l) ∧
    (∃ l, l.Sublist (bodyIds body).reverse ∧ keysA tbl.node_substs = l) ∧
    (∃ l, l.Sublist (bodyIds body).reverse ∧ keysA tbl.type_dependent_defs = l) ∧
    (∃ l, l.Sublist (bodyIds body).reverse ∧ keysA tbl.adjustments = l) ∧
    (∃ l, l.Sublist (bodyIds body).reverse ∧ keysA tbl.pat_binding_modes = l) ∧
    (∃ l, l.Sublist (bodyIds body).reverse ∧ keysA tbl.pat_adjustments = l) ∧
    keysA tbl.upvar_capture_map = (keysA fcx0.upvar_capture_map).reverse ∧
    keysA tbl.closure_tys =
      ((fcx0.closure_tys.map (fun p => rekey root p.1))).reverse ∧
    keysA tbl.closure_kinds =
      ((fcx0.closure_kinds.map (fun p => rekey root p.1))).reverse ∧
    keysA tbl.cast_kinds =
      ((fcx0.cast_kinds.map (fun p => rekey root p.1))).reverse ∧
    keysA tbl.liberated_fn_sigs =
      ((fcx0.liberated_fn_sigs.map (fun p => rekey root p.1))).reverse ∧
    keysA tbl.fru_field_types =
      ((fcx0.fru_field_types.map (fun p => rekey root p.1))).reverse ∧
    keysA tbl.generator_sigs =
      ((fcx0.generator_sigs.map (fun p => rekey root p.1))).reverse ∧
    keysA tbl.generator_interiors =
      ((fcx0.generator_interiors.map (fun p => rekey root p.1))).reverse := by
  simp only [resolve_type_vars_in_body] at h
  rcases hA : visit_arg_ids icx body.args
      { fcx_tables := fcx0, tables := { local_id_root := some owner }, st := st0 }
      with e | s1
  · simp only [hA] at h
    exact Except.noConfusion h
  · simp only [hA] at h
    rcases hP : visit_arg_pats icx body.args s1 with e | s2
    · simp only [hP] at h
      exact Except.noConfusion h
    · simp only [hP] at h
      rcases hE : visit_expr icx body.value s2 with e | s3
      · simp only [hE] at h
        exact Except.noConfusion h
      · simp only [hE] at h
        rcases h4 : visit_upvar_borrow_map icx s3 with e | s4
        · simp only [h4] at h
          exact Except.noConfusion h
        · simp only [h4] at h
          rcases h5 : visit_closures icx s4 with e | s5
          · simp only [h5] at h
            exact Except.noConfusion h
          · simp only [h5] at h
            rcases h6 : visit_liberated_fn_sigs icx s5 with e | s6
            · simp only [h6] at h
              exact Except.noConfusion h
            · simp only [h6] at h
              rcases h7 : visit_fru_field_types icx s6 with e | s7
              · simp only [h7] at h
                exact Except.noConfusion h
              · simp only [h7] at h
                rcases h8 : visit_anon_types icx anon s7 with e | s8
                · simp only [h8] at h
                  exact Except.noConfusion h
                · simp only [h8] at h
                  rcases h9 : visit_cast_types s8 with e | s9
                  · simp only [h9] at h
                    exact Except.noConfusion h
                  · simp only [h9] at h
                    rcases h10 : visit_free_region_map s9 with e | s10
                    · simp only [h10] at h
                      exact Except.noConfusion h
                    · simp only [h10] at h
                      rcases h11 : visit_generator_sigs icx s10 with e | s11
                      · simp only [h11] at h
                        exact Except.noConfusion h
                      · simp only [h11] at h
                        rcases h12 : visit_generator_interiors icx s11 with e | s12
                        · simp only [h12] at h
                          exact Except.noConfusion h
                        · simp only [h12] at h
                          simp only [Except.ok.injEq, Prod.mk.injEq] at h
                          obtain ⟨htbl, hst⟩ := h
                          subst htbl
                          obtain ⟨AK, Amem, AV, AF⟩ := visit_arg_ids_spec hA
                          obtain ⟨PK, Pmem, PV, PF⟩ := visit_arg_pats_spec hP
                          obtain ⟨EK, Emem, EV, EF⟩ := visit_expr_spec hE
                          have TK := AK.trans (PK.trans EK)
                          have FcxT := AF.comp (PF.comp EF)
                          have hr3 : s3.fcx_tables.local_id_root = some root := by
                            rw [FcxT.root]
                            exact hroot
                          obtain ⟨K4, F4, V4⟩ := visit_upvar_borrow_map_spec h4
                          have e4 : s3.fcx_tables.upvar_capture_map =
                              fcx0.upvar_capture_map := FcxT.uv
                          rw [e4] at K4
                          have hr4 : s4.fcx_tables.local_id_root = some root := by
                            rw [F4]
                            exact hr3
                          obtain ⟨K5, F5, V5⟩ := visit_closures_spec h5 hr4
                          have e5a : s4.fcx_tables.closure_tys = fcx0.closure_tys := by
                            rw [F4]
                            exact FcxT.ct
                          have e5b : s4.fcx_tables.closure_kinds = fcx0.closure_kinds := by
                            rw [F4]
                            exact FcxT.ck
                          rw [e5a, e5b] at K5
                          have hr5 : s5.fcx_tables.local_id_root = some root := by
                            rw [F5]
                            exact hr4
                          obtain ⟨K6, F6, V6⟩ := visit_liberated_fn_sigs_spec h6 hr5
                          have e6 : s5.fcx_tables.liberated_fn_sigs =
                              fcx0.liberated_fn_sigs := by
                            rw [F5, F4]
                            exact FcxT.lib
                          rw [e6] at K6
                          have hr6 : s6.fcx_tables.local_id_root = some root := by
                            rw [F6]
                            exact hr5
                          obtain ⟨K7, F7, V7⟩ := visit_fru_field_types_spec h7 hr6
                          have e7 : s6.fcx_tables.fru_field_types =
                              fcx0.fru_field_types := by
                            rw [F6, F5, F4]
                            exact FcxT.fru
                          rw [e7] at K7
                          obtain ⟨K8, F8, V8⟩ := visit_anon_types_spec h8
                          have hr8 : s8.fcx_tables.local_id_root = some root := by
                            rw [F8, F7, F6]
                            exact hr5
                          obtain ⟨K9, F9, V9⟩ := visit_cast_types_spec h9 hr8
                          have e9 : s8.fcx_tables.cast_kinds = fcx0.cast_kinds := by
                            rw [F8, F7, F6, F5, F4]
                            exact FcxT.cast
                          rw [e9] at K9
                          obtain ⟨K10, F10, V10⟩ := visit_free_region_map_spec h10
                          have hr10 : s10.fcx_tables.local_id_root = some root := by
                            rw [F10, F9]
                            exact hr8
                          obtain ⟨K11, F11, V11⟩ := visit_generator_sigs_spec h11 hr10
                          have e11 : s10.fcx_tables.generator_sigs =
                              fcx0.generator_sigs := by
                            rw [F10, F9, F8, F7, F6, F5, F4]
                            exact FcxT.gs
                          rw [e11] at K11
                          have hr11 : s11.fcx_tables.local_id_root = some root := by
                            rw [F11]
                            exact hr10
                          obtain ⟨K12, F12, V12⟩ :=
                            visit_generator_interiors_spec h12 hr11
                          have e12 : s11.fcx_tables.generator_interiors =
                              fcx0.generator_interiors := by
                            rw [F11, F10, F9, F8, F7, F6, F5, F4]
                            exact FcxT.gi
                          rw [e12] at K12
                          have PKall := ((((((((K4.comp K5).comp K6).comp K7).comp
                            K8).comp K9).comp K10).comp K11).comp K12)
                          have Vall := (AV.comp (PV.comp EV)).comp
                            (V4.comp (V5.comp (V6.comp (V7.comp (V8.comp (V9.comp
                              (V10.comp (V11.comp V12))))))))
                          have Ok0 : TablesOk
                              ({ local_id_root := some owner } : TypeckTables) := by
                            constructor <;> (intro p hp; simp at hp)
                          refine ⟨?_, ?_, ?_, ?_, ?_, ?_, ?_, ?_, ?_, ?_, ?_, ?_, ?_,
                                  ?_, ?_⟩
                          · refine (Ok0.step ?_)
                            refine Vall.comp ?_
                            exact ⟨mem_step_refl _, mem_step_refl _, mem_step_refl _,
                                   mem_step_refl _, mem_step_refl _, mem_step_refl _,
                                   mem_step_refl _, mem_step_refl _, mem_step_refl _,
                                   mem_step_refl _, mem_step_refl _⟩
                          · obtain ⟨l, hl, e3⟩ := TK.nt
                            refine ⟨l, hl, ?_⟩
                            have hP12 := PKall.nt
                            simp only [List.append_nil, List.nil_append] at hP12
                            show keysA s12.tables.node_types = _
                            rw [hP12, e3]
                            simp [keysA]
                          · obtain ⟨l, hl, e3⟩ := TK.ns
                            refine ⟨l, hl, ?_⟩
                            show keysA s12.tables.node_substs = _
                            rw [PKall.ns, e3]
                            simp [keysA]
                          · obtain ⟨l, hl, e3⟩ := TK.tdd
                            refine ⟨l, hl, ?_⟩
                            show keysA s12.tables.type_dependent_defs = _
                            rw [PKall.tdd, e3]
                            simp [keysA]
                          · obtain ⟨l, hl, e3⟩ := TK.adj
                            refine ⟨l, hl, ?_⟩
                            show keysA s12.tables.adjustments = _
                            rw [PKall.adj, e3]
                            simp [keysA]
                          · obtain ⟨l, hl, e3⟩ := TK.pbm
                            refine ⟨l, hl, ?_⟩
                            show keysA s12.tables.pat_binding_modes = _
                            rw [PKall.pbm, e3]
                            simp [keysA]
                          · obtain ⟨l, hl, e3⟩ := TK.padj
                            refine ⟨l, hl, ?_⟩
                            show keysA s12.tables.pat_adjustments = _
                            rw [PKall.padj, e3]
                            simp [keysA]
                          · have hP12 := PKall.uv
                            simp only [List.append_nil, List.nil_append] at hP12
                            show keysA s12.tables.upvar_capture_map = _
                            rw [hP12, TK.side.uv]
                            simp [keysA]
                          · have hP12 := PKall.ct
                            simp only [List.append_nil, List.nil_append] at hP12
                            show keysA s12.tables.closure_tys = _
                            rw [hP12, TK.side.ct]
                            simp [keysA]
                          · have hP12 := PKall.ck
                            simp only [List.append_nil, List.nil_append] at hP12
                            show keysA s12.tables.closure_kinds = _
                            rw [hP12, TK.side.ck]
                            simp [keysA]
                          · have hP12 := PKall.cast
                            simp only [List.append_nil, List.nil_append] at hP12
                            show keysA s12.tables.cast_kinds = _
                            rw [hP12, TK.side.cast]
                            simp [keysA]
                          · have hP12 := PKall.lib
                            simp only [List.append_nil, List.nil_append] at hP12
                            show keysA s12.tables.liberated_fn_sigs = _
                            rw [hP12, TK.side.lib]
                            simp [keysA]
                          · have hP12 := PKall.fru
                            simp only [List.append_nil, List.nil_append] at hP12
                            show keysA s12.tables.fru_field_types = _
                            rw [hP12, TK.side.fru]
                            simp [keysA]
                          · have hP12 := PKall.gs
                            simp only [List.append_nil, List.nil_append] at hP12
                            show keysA s12.tables.generator_sigs = _
                            rw [hP12, TK.side.gs]
                            simp [keysA]
                          · have hP12 := PKall.gi
                            simp only [List.append_nil, List.nil_append] at hP12
                            show keysA s12.tables.generator_interiors = _
                            rw [hP12, TK.side.gi]
                            simp [keysA]

theorem C4_witness :
    (St.mk true [Diag.regionInImplTrait (Region.ReFree 7) (Ty.adt 0)]).diags.length =
      (St.mk false []).diags.length +
        countOffending (Ty.ref (Region.ReFree 7) Ty.bool) :=
  C4_anon_region_gate.2.2.2.2.2.2.2.2.2 (Ty.adt 0) (St.mk false [])
    (Ty.ref (Region.ReFree 7) Ty.bool)
    (Ty.ref Region.ReStatic Ty.bool)
    (St.mk true [Diag.regionInImplTrait (Region.ReFree 7) (Ty.adt 0)]) (by rfl)

/-! ## Claims C1, C3, C6, C9, C10 -/

/-- C1. No value written into the finalized table by any finalization
operation contains an inference variable, and this is enforced by
runtime checks: the `assert` in `write_ty_to_tables` rejects any
inference-carrying type at the point of writing, and the lift step of
`resolve` (through which adjustments, side-table values and opaque-type
witnesses pass) fails fatally on any inference-carrying value. -/
theorem C1_no_infer_written (icx : InferCtxt) (anon : List (HirId × Ty))
    (owner root : Nat) (body : Body) (fcx0 : TypeckTables) (st0 : St)
    (tbl : TypeckTables) (stf : St)
    (h : resolve_type_vars_in_body icx anon owner body fcx0 st0 = .ok (tbl, stf))
    (hroot : fcx0.local_id_root = some root) :
    TablesOk tbl ∧
    (∀ (tb : TypeckTables) (i : HirId) (t : Ty), needsInfer t = true →
      write_ty_to_tables tb i t = .error RunErr.assertNoInfer) ∧
    (∀ t : Ty, needsInfer t = true → liftTy t = none) :=
  ⟨(run_spec h hroot).1,
   fun tb i t ht => by
     unfold write_ty_to_tables
     simp [ht],
   fun t ht => by
     unfold liftTy
     simp [ht]⟩

theorem C1_witness :
    TablesOk exTbl ∧
    write_ty_to_tables {} ⟨0, 0⟩ (Ty.infer 5) = .error RunErr.assertNoInfer :=
  ⟨(C1_no_infer_written exIcx [] 0 0 exBody exFcx ⟨false, []⟩ exTbl exStf
      (by rfl) (by rfl)).1,
   (C1_no_infer_written exIcx [] 0 0 exBody exFcx ⟨false, []⟩ exTbl exStf
      (by rfl) (by rfl)).2.1 {} ⟨0, 0⟩ (Ty.infer 5) (by decide)⟩

/-- C3. `fix_scalar_builtin_expr`: when the operands of a unary
negation/not, binary, or compound-assignment operator all resolve to
primitive scalar types, the recorded operator-overload resolution
(type-dependent def and substitutions) for the expression is deleted;
a binary operator that is not by-value additionally pops one trailing
adjustment from each operand, a compound assignment from the left
operand only. -/
theorem C3_scalar_builtin_cleanup (icx : InferCtxt) :
    (∀ (s : WState) (i : HirId) (uop : UnOp) (inner : Expr) (t : Ty),
      uop ≠ UnOp.deref →
      lookupA s.fcx_tables.node_types inner.id = some t →
      is_scalar (resolveVarsTy icx t) = true →
      fix_scalar_builtin_expr icx (.unary i uop inner) s =
        .ok { s with fcx_tables :=
          { s.fcx_tables with
            type_dependent_defs := eraseA s.fcx_tables.type_dependent_defs i,
            node_substs := eraseA s.fcx_tables.node_substs i } } ∧
      lookupA (eraseA s.fcx_tables.type_dependent_defs i) i = none ∧
      lookupA (eraseA s.fcx_tables.node_substs i) i = none) ∧
    (∀ (s : WState) (i : HirId) (op : BinOp) (lhs rhs : Expr) (lt rt : Ty),
      lookupA s.fcx_tables.node_types lhs.id = some lt →
      lookupA s.fcx_tables.node_types rhs.id = some rt →
      is_scalar (resolveVarsTy icx lt) = true →
      is_scalar (resolveVarsTy icx rt) = true →
      fix_scalar_builtin_expr icx (.binary i op lhs rhs) s =
        .ok { s with fcx_tables :=
          { s.fcx_tables with
            type_dependent_defs := eraseA s.fcx_tables.type_dependent_defs i,
            node_substs := eraseA s.fcx_tables.node_substs i,
            adjustments :=
              if op.is_by_value then s.fcx_tables.adjustments
              else modifyA (modifyA s.fcx_tables.adjustments lhs.id List.dropLast)
                     rhs.id List.dropLast } } ∧
      lookupA (eraseA s.fcx_tables.type_dependent_defs i) i = none ∧
      lookupA (eraseA s.fcx_tables.node_substs i) i = none ∧
      lookupA (modifyA (modifyA s.fcx_tables.adjustments lhs.id List.dropLast)
          rhs.id List.dropLast) rhs.id =
        (lookupA (modifyA s.fcx_tables.adjustments lhs.id List.dropLast) rhs.id).map
          List.dropLast) ∧
    (∀ (s : WState) (i : HirId) (op : BinOp) (lhs rhs : Expr) (lt rt : Ty),
      lookupA s.fcx_tables.node_types lhs.id = some lt →
      lookupA s.fcx_tables.node_types rhs.id = some rt →
      is_scalar (resolveVarsTy icx lt) = true →
      is_scalar (resolveVarsTy icx rt) = true →
      fix_scalar_builtin_expr icx (.assignOp i op lhs rhs) s =
        .ok { s with fcx_tables :=
          { s.fcx_tables with
            type_dependent_defs := eraseA s.fcx_tables.type_dependent_defs i,
            node_substs := eraseA s.fcx_tables.node_substs i,
            adjustments := modifyA s.fcx_tables.adjustments lhs.id List.dropLast } } ∧
      lookupA (eraseA s.fcx_tables.type_dependent_defs i) i = none ∧
      lookupA (eraseA s.fcx_tables.node_substs i) i = none ∧
      lookupA (modifyA s.fcx_tables.adjustments lhs.id List.dropLast) lhs.id =
        (lookupA s.fcx_tables.adjustments lhs.id).map List.dropLast) := by
  refine ⟨?_, ?_, ?_⟩
  · intro s i uop inner t hop hl hs
    refine ⟨?_, lookupA_eraseA_self _ _, lookupA_eraseA_self _ _⟩
    cases uop with
    | deref => exact absurd rfl hop
    | neg => simp [fix_scalar_builtin_expr, node_ty, hl, hs]
    | not => simp [fix_scalar_builtin_expr, node_ty, hl, hs]
  · intro s i op lhs rhs lt rt hl hr hsl hsr
    refine ⟨?_, lookupA_eraseA_self _ _, lookupA_eraseA_self _ _,
            lookupA_modifyA_self _ _ _⟩
    by_cases hbv : op.is_by_value = true
    · simp [fix_scalar_builtin_expr, node_ty, hl, hr, hsl, hsr, hbv]
    · simp only [Bool.not_eq_true] at hbv
      simp [fix_scalar_builtin_expr, node_ty, hl, hr, hsl, hsr, hbv]
  · intro s i op lhs rhs lt rt hl hr hsl hsr
    refine ⟨?_, lookupA_eraseA_self _ _, lookupA_eraseA_self _ _,
            lookupA_modifyA_self _ _ _⟩
    simp [fix_scalar_builtin_expr, node_ty, hl, hr, hsl, hsr]

theorem C3_witness :
    fix_scalar_builtin_expr exIcx
        (.binary ⟨0, 0⟩ ⟨false⟩ (.lit ⟨0, 1⟩) (.lit ⟨0, 2⟩)) exFixState =
      .ok { exFixState with fcx_tables :=
        { exFixState.fcx_tables with
          type_dependent_defs := eraseA exFixState.fcx_tables.type_dependent_defs ⟨0, 0⟩,
          node_substs := eraseA exFixState.fcx_tables.node_substs ⟨0, 0⟩,
          adjustments :=
            if (⟨false⟩ : BinOp).is_by_value then exFixState.fcx_tables.adjustments
            else modifyA
                   (modifyA exFixState.fcx_tables.adjustments
                     (Expr.lit ⟨0, 1⟩).id List.dropLast)
                   (Expr.lit ⟨0, 2⟩).id List.dropLast } } ∧
    fix_scalar_builtin_expr exIcx
        (.unary ⟨0, 0⟩ .neg (.lit ⟨0, 1⟩)) exFixState =
      .ok { exFixState with fcx_tables :=
        { exFixState.fcx_tables with
          type_dependent_defs := eraseA exFixState.fcx_tables.type_dependent_defs ⟨0, 0⟩,
          node_substs := eraseA exFixState.fcx_tables.node_substs ⟨0, 0⟩ } } :=
  ⟨((C3_scalar_builtin_cleanup exIcx).2.1 exFixState ⟨0, 0⟩ ⟨false⟩
      (.lit ⟨0, 1⟩) (.lit ⟨0, 2⟩) (.int 32) (.int 32)
      (by rfl) (by rfl) (by rfl) (by rfl)).1,
   ((C3_scalar_builtin_cleanup exIcx).1 exFixState ⟨0, 0⟩ .neg
      (.lit ⟨0, 1⟩) (.int 32) (by decide) (by rfl) (by rfl)).1⟩

/-- C6. Within one finalization run, every identifier maps to at most one
entry per map of the finalized table — the key lists of the run are duplicate
free, so no write ever overwrites an earlier entry of the same run —
given the well-formedness of the inputs: distinct node identifiers in
the body, opaque-type keys disjoint from body identifiers, and
duplicate-free in-progress side tables. -/
theorem C6_no_overwrite (icx : InferCtxt) (anon : List (HirId × Ty))
    (owner root : Nat) (body : Body) (fcx0 : TypeckTables) (st0 : St)
    (tbl : TypeckTables) (stf : St)
    (h : resolve_type_vars_in_body icx anon owner body fcx0 st0 = .ok (tbl, stf))
    (hroot : fcx0.local_id_root = some root)
    (hids : (bodyIds body ++ keysA anon).Nodup)
    (huv : (keysA fcx0.upvar_capture_map).Nodup)
    (hct : ((fcx0.closure_tys.map (fun p => rekey root p.1))).Nodup)
    (hck : ((fcx0.closure_kinds.map (fun p => rekey root p.1))).Nodup)
    (hcast : ((fcx0.cast_kinds.map (fun p => rekey root p.1))).Nodup)
    (hlib : ((fcx0.liberated_fn_sigs.map (fun p => rekey root p.1))).Nodup)
    (hfru : ((fcx0.fru_field_types.map (fun p => rekey root p.1))).Nodup)
    (hgs : ((fcx0.generator_sigs.map (fun p => rekey root p.1))).Nodup)
    (hgi : ((fcx0.generator_interiors.map (fun p => rekey root p.1))).Nodup) :
    (keysA tbl.node_types).Nodup ∧
    (keysA tbl.node_substs).Nodup ∧
    (keysA tbl.type_dependent_defs).Nodup ∧
    (keysA tbl.adjustments).Nodup ∧
    (keysA tbl.pat_binding_modes).Nodup ∧
    (keysA tbl.pat_adjustments).Nodup ∧
    (keysA tbl.upvar_capture_map).Nodup ∧
    (keysA tbl.closure_tys).Nodup ∧
    (keysA tbl.closure_kinds).Nodup ∧
    (keysA tbl.cast_kinds).Nodup ∧
    (keysA tbl.liberated_fn_sigs).Nodup ∧
    (keysA tbl.fru_field_types).Nodup ∧
    (keysA tbl.generator_sigs).Nodup ∧
    (keysA tbl.generator_interiors).Nodup := by
  obtain ⟨_, ⟨lnt, hlnt, ent⟩, ⟨lns, hlns, ens⟩, ⟨ltd, hltd, etd⟩, ⟨lad, hlad, ead⟩,
          ⟨lpb, hlpb, epb⟩, ⟨lpa, hlpa, epa⟩, euv, ect, eck, ecast, elib, efru,
          egs, egi⟩ := run_spec h hroot
  rw [List.nodup_append] at hids
  obtain ⟨hb, ha, hdis⟩ := hids
  have hbrev : (bodyIds body).reverse.Nodup := List.nodup_reverse.mpr hb
  refine ⟨?_, ?_, ?_, ?_, ?_, ?_, ?_, ?_, ?_, ?_, ?_, ?_, ?_, ?_⟩
  · rw [ent, List.nodup_append]
    refine ⟨List.nodup_reverse.mpr ha, hlnt.nodup hbrev, ?_⟩
    intro a har hal
    exact hdis (List.mem_reverse.mp (hlnt.subset hal)) (List.mem_reverse.mp har)
  · rw [ens]
    exact hlns.nodup hbrev
  · rw [etd]
    exact hltd.nodup hbrev
  · rw [ead]
    exact hlad.nodup hbrev
  · rw [epb]
    exact hlpb.nodup hbrev
  · rw [epa]
    exact hlpa.nodup hbrev
  · rw [euv]
    exact List.nodup_reverse.mpr huv
  · rw [ect]
    exact List.nodup_reverse.mpr hct
  · rw [eck]
    exact List.nodup_reverse.mpr hck
  · rw [ecast]
    exact List.nodup_reverse.mpr hcast
  · rw [elib]
    exact List.nodup_reverse.mpr hlib
  · rw [efru]
    exact List.nodup_reverse.mpr hfru
  · rw [egs]
    exact List.nodup_reverse.mpr hgs
  · rw [egi]
    exact List.nodup_reverse.mpr hgi

theorem C6_witness :
    (keysA exTbl.node_types).Nodup ∧ (keysA exTbl.pat_binding_modes).Nodup :=
  ⟨(C6_no_overwrite exIcx [] 0 0 exBody exFcx ⟨false, []⟩ exTbl exStf
      (by rfl) (by rfl) (by decide) (by decide) (by decide) (by decide) (by decide)
      (by decide) (by decide) (by decide) (by decide)).1,
   (C6_no_overwrite exIcx [] 0 0 exBody exFcx ⟨false, []⟩ exTbl exStf
      (by rfl) (by rfl) (by decide) (by decide) (by decide) (by decide) (by decide)
      (by decide) (by decide) (by decide) (by decide)).2.2.2.2.1⟩

/-- C9. Visiting a closure expression recursively finalizes the closure
argument nodes, the argument patterns and every node of the nested body
into the same (enclosing) output table within the same run. -/
theorem C9_closure_nested_body (icx : InferCtxt) (cid : HirId) (args : List Arg)
    (bodyE : Expr) (s s' : WState)
    (h : visit_expr icx (.closure cid args bodyE) s = .ok s') :
    ∀ j ∈ (Expr.closure cid args bodyE).ids,
      (lookupA s'.tables.node_types j).isSome = true :=
  fun j hj => lookupA_isSome_of_mem_keysA ((visit_expr_spec h).2.1 j hj)

theorem C9_witness :
    (lookupA exCloRes.tables.node_types ⟨0, 13⟩).isSome = true ∧
    (lookupA exCloRes.tables.node_types ⟨0, 12⟩).isSome = true :=
  ⟨C9_closure_nested_body exIcx ⟨0, 10⟩ [{ id := ⟨0, 11⟩, pat := .binding ⟨0, 12⟩ }]
      (.lit ⟨0, 13⟩) exCloState exCloRes (by rfl) ⟨0, 13⟩ (by decide),
   C9_closure_nested_body exIcx ⟨0, 10⟩ [{ id := ⟨0, 11⟩, pat := .binding ⟨0, 12⟩ }]
      (.lit ⟨0, 13⟩) exCloState exCloRes (by rfl) ⟨0, 12⟩ (by decide)⟩

/-- C10. For a binding pattern, the recorded binding mode is copied
verbatim from the in-progress table into the output table (it never
passes through the folding engine), and a missing binding-mode entry is
a panic. -/
theorem C10_binding_mode_verbatim (icx : InferCtxt) (i : HirId) (s : WState) :
    (lookupA s.fcx_tables.pat_binding_modes i = none →
      visit_pat icx (.binding i) s = .error RunErr.missingBindingMode) ∧
    (∀ (bm : BindingMode) (s' : WState),
      lookupA s.fcx_tables.pat_binding_modes i = some bm →
      visit_pat icx (.binding i) s = .ok s' →
      lookupA s'.tables.pat_binding_modes i = some bm) := by
  constructor
  · intro hn
    simp [visit_pat, visit_pat_node, Pat.id, hn]
  · intro bm s' hs hv
    simp only [visit_pat, visit_pat_node, Pat.id, hs] at hv
    rcases hpa : visit_pat_adjustments icx i
        { s with tables :=
          { s.tables with
            pat_binding_modes := insertA s.tables.pat_binding_modes i bm } }
        with e | s2
    · simp only [hpa] at hv
      exact Except.noConfusion hv
    · simp only [hpa] at hv
      obtain ⟨P1, P2, P3, P4, P5, _, _, _, _⟩ := visit_pat_adjustments_spec hpa
      obtain ⟨_, _, _, _, Npbm, _⟩ := visit_node_id_spec hv
      rw [Npbm, P4]
      exact lookupA_insertA_self _ _ _

theorem C10_witness :
    lookupA exPatRes.tables.pat_binding_modes ⟨0, 2⟩ =
      some (BindingMode.byRef true) ∧
    visit_pat exIcx (.binding ⟨0, 9⟩) exPatState = .error RunErr.missingBindingMode :=
  ⟨(C10_binding_mode_verbatim exIcx ⟨0, 2⟩ exPatState).2 (BindingMode.byRef true)
      exPatRes (by rfl) (by rfl),
   (C10_binding_mode_verbatim exIcx ⟨0, 9⟩ exPatState).1 (by rfl)⟩

end Writeback
